import Mathlib

/-!
Verification of the session-log parsing subsystem of `agentreflect`
(`src/agentreflect/parser.py`), shallowly embedded over `List Char`
(modelling Python `str`).  The embedding covers: role normalization
(`_normalize_role`), format detection (`detect_format`,
`_is_nanobot_format`), the four grammar parsers (`parse_json`,
`parse_jsonl`, `parse_text`, `parse_nanobot`) and the top-level entry
point `parse_session`.

Modelling conventions:
  * Python `str` is `List Char`; `str.strip()` strips the ASCII
    whitespace characters (Unicode whitespace beyond ASCII is not
    modelled; no claim depends on it).
  * `json.loads` is modelled by an executable recursive-descent JSON
    parser `jsonLoads` (objects, arrays, strings with escapes, numbers,
    booleans, null); floats are carried symbolically by their literal,
    since no claim depends on float arithmetic or float formatting.
  * Python exceptions are modelled with `Except`: `ParseError` sites
    become constructors of `PErr` carrying the data interpolated into
    the Python message; the uncaught `AttributeError`/`TypeError` that
    `parser.py` would hit on a non-string `role` field (or a non-string
    `"text"` part) is modelled by the distinguished `PErr.pyCrash`.
  * The regexes of `parser.py` are compiled by hand into character-list
    matchers, keeping Python `re` semantics (MULTILINE anchoring at
    line starts, `\s` spanning newlines, greedy runs, ordered
    alternation over prefix-free label sets).
-/

/-- Python strings are modelled as lists of characters. -/
abbrev Str : Type := List Char

/-- The ASCII whitespace characters stripped by Python `str.strip()` and
matched by the regex class `\s`. -/
def pyIsSpace (c : Char) : Bool :=
  c = ' ' || c = '\t' || c = '\n' || c = '\r' || c = '\x0b' || c = '\x0c'

/-- Python `str.strip()`: remove leading and trailing whitespace. -/
def pyStrip (s : Str) : Str :=
  ((s.dropWhile pyIsSpace).reverse.dropWhile pyIsSpace).reverse

/-- Python `str.lower()` (ASCII range). -/
def pyLower (s : Str) : Str := s.map Char.toLower

/-- `needle.isPrefixOf hay`, i.e. Python `hay.startswith(needle)`. -/
def strStarts (needle hay : Str) : Bool := needle.isPrefixOf hay

/-- Python `needle in hay` (substring search). -/
def strContains (needle : Str) : Str → Bool
  | [] => needle.isEmpty
  | c :: cs => needle.isPrefixOf (c :: cs) || strContains needle cs

/-- Python `s.split("\n")` (no maxsplit): `splitNl "" = [""]`. -/
def splitNl : Str → List Str
  | [] => [[]]
  | c :: cs =>
    if c = '\n' then [] :: splitNl cs
    else
      match splitNl cs with
      | [] => [[c]]
      | h :: t => (c :: h) :: t

/-- Python `s.split("\n", n)` (maxsplit `n`): at most `n` splits, the
remainder (newlines included) is kept as the last element. -/
def splitNlN : Nat → Str → List Str
  | 0, s => [s]
  | n + 1, s =>
    let a := s.takeWhile (fun c => !(c = '\n'))
    match s.drop a.length with
    | [] => [a]
    | _ :: rest => a :: splitNlN n rest

/-- Decimal value of a digit string. -/
def digitsToNat (ds : Str) : Nat := ds.foldl (fun a c => a * 10 + (c.toNat - 48)) 0

/-! ## JSON values and `json.loads` -/

/-- A Python number decoded from JSON: `int`, or `float` carried
symbolically by its source literal. -/
inductive JNum : Type
  | int (i : Int)
  | float (lit : Str)

/-- A JSON value as decoded by Python `json.loads`.  Objects are kept as
association lists in source order; on duplicate keys Python keeps the
last value, which lookups below replicate. -/
inductive Json : Type
  | null
  | bool (b : Bool)
  | num (n : JNum)
  | str (s : Str)
  | arr (items : List Json)
  | obj (fields : List (Str × Json))

/-- JSON whitespace skipped between tokens (`' '`, `'\t'`, `'\n'`, `'\r'`). -/
def isJWs (c : Char) : Bool := c = ' ' || c = '\t' || c = '\n' || c = '\r'

/-- Skip JSON inter-token whitespace. -/
def dropJWs (s : Str) : Str := s.dropWhile isJWs

/-- Value of a hexadecimal digit, for `\uXXXX` escapes. -/
def hexVal (c : Char) : Option Nat :=
  if '0' ≤ c ∧ c ≤ '9' then some (c.toNat - 48)
  else if 'a' ≤ c ∧ c ≤ 'f' then some (c.toNat - 87)
  else if 'A' ≤ c ∧ c ≤ 'F' then some (c.toNat - 55)
  else none

/-- Single-character JSON string escapes. -/
def escChar (e : Char) : Option Char :=
  if e = '\"' then some '\"'
  else if e = '\\' then some '\\'
  else if e = '/' then some '/'
  else if e = 'b' then some (Char.ofNat 8)
  else if e = 'f' then some (Char.ofNat 12)
  else if e = 'n' then some '\n'
  else if e = 'r' then some '\r'
  else if e = 't' then some '\t'
  else none

/-- Parse the body of a JSON string, after the opening quote; returns
the decoded characters and the remainder after the closing quote.
Unescaped control characters are rejected, as in strict `json.loads`.
(Surrogate-pair recombination of `\uXXXX` escapes is not modelled.) -/
def parseStrBody : Str → Option (Str × Str)
  | [] => none
  | c :: cs =>
    if c = '\"' then some ([], cs)
    else if c = '\\' then
      match cs with
      | [] => none
      | e :: cs2 =>
        if e = 'u' then
          match cs2 with
          | a :: b :: c2 :: d :: cs3 =>
            match hexVal a, hexVal b, hexVal c2, hexVal d with
            | some ha, some hb, some hc, some hd =>
              (parseStrBody cs3).map
                (fun p => (Char.ofNat (((ha * 16 + hb) * 16 + hc) * 16 + hd) :: p.1, p.2))
            | _, _, _, _ => none
          | _ => none
        else
          match escChar e with
          | none => none
          | some ch => (parseStrBody cs2).map (fun p => (ch :: p.1, p.2))
    else if c.toNat < 32 then none
    else (parseStrBody cs).map (fun p => (c :: p.1, p.2))

/-- Parse the part of a JSON number after the optional sign (strict
grammar `(0|[1-9]\d*)(\.\d+)?([eE][+-]?\d+)?`): an integer when it has
no fraction/exponent, a symbolic float otherwise. -/
def parseNumCore (neg : Bool) : Str → Option (Json × Str)
  | [] => none
  | d :: tail =>
    if !d.isDigit then none
    else
      let p : Bool × Str := (neg, d :: tail)
      let intDigits := if d = '0' then ['0'] else p.2.takeWhile Char.isDigit
      let r1 := p.2.drop intDigits.length
      let fr : Str × Str × Bool := match r1 with
        | '.' :: fd =>
          let ds := fd.takeWhile Char.isDigit
          if ds = [] then ([], r1, false)
          else ('.' :: ds, fd.drop ds.length, true)
        | _ => ([], r1, false)
      let ex : Str × Str × Bool := match fr.2.1 with
        | e :: er =>
          if e = 'e' || e = 'E' then
            let se : Str × Str := match er with
              | '+' :: x => (['+'], x)
              | '-' :: x => (['-'], x)
              | _ => ([], er)
            let ds := se.2.takeWhile Char.isDigit
            if ds = [] then ([], fr.2.1, false)
            else (e :: (se.1 ++ ds), se.2.drop ds.length, true)
          else ([], fr.2.1, false)
        | _ => ([], fr.2.1, false)
      let nv : JNum :=
        if fr.2.2 || ex.2.2 then
          .float ((if p.1 then ['-'] else []) ++ intDigits ++ fr.1 ++ ex.1)
        else
          .int (if p.1 then -(Int.ofNat (digitsToNat intDigits)) else Int.ofNat (digitsToNat intDigits))
      some (.num nv, ex.2.1)

/-- Parse a JSON number with its optional leading minus sign. -/
def parseNum (cs : Str) : Option (Json × Str) :=
  match cs with
  | '-' :: r => parseNumCore true r
  | _ => parseNumCore false cs

mutual

/-- Recursive-descent JSON value parser (fuel-indexed for termination).
Dispatches on the first non-whitespace character exactly as the JSON
grammar does. -/
def parseVal : Nat → Str → Option (Json × Str)
  | 0, _ => none
  | fuel + 1, cs =>
    match dropJWs cs with
    | [] => none
    | c :: rest =>
      if c = '\x7b' then
        match dropJWs rest with
        | '\x7d' :: r => some (.obj [], r)
        | r2 => (parseObjElems fuel r2).map (fun p => (.obj p.1, p.2))
      else if c = '[' then
        match dropJWs rest with
        | ']' :: r => some (.arr [], r)
        | r2 => (parseArrElems fuel r2).map (fun p => (.arr p.1, p.2))
      else if c = '\"' then
        (parseStrBody rest).map (fun p => (.str p.1, p.2))
      else if c = 't' then
        if strStarts "rue".toList rest then some (.bool true, rest.drop 3) else none
      else if c = 'f' then
        if strStarts "alse".toList rest then some (.bool false, rest.drop 4) else none
      else if c = 'n' then
        if strStarts "ull".toList rest then some (.null, rest.drop 3) else none
      else if c = '-' || c.isDigit then parseNum (c :: rest)
      else none

/-- Parse the comma-separated elements of a non-empty JSON array, up to
and including the closing bracket. -/
def parseArrElems : Nat → Str → Option (List Json × Str)
  | 0, _ => none
  | fuel + 1, cs =>
    match parseVal fuel cs with
    | none => none
    | some (v, r) =>
      match dropJWs r with
      | ',' :: r2 => (parseArrElems fuel r2).map (fun p => (v :: p.1, p.2))
      | ']' :: r2 => some ([v], r2)
      | _ => none

/-- Parse the members of a non-empty JSON object, up to and including
the closing brace. -/
def parseObjElems : Nat → Str → Option (List (Str × Json) × Str)
  | 0, _ => none
  | fuel + 1, cs =>
    match dropJWs cs with
    | '\"' :: r =>
      match parseStrBody r with
      | none => none
      | some (k, r2) =>
        match dropJWs r2 with
        | ':' :: r3 =>
          match parseVal fuel r3 with
          | none => none
          | some (v, r4) =>
            match dropJWs r4 with
            | ',' :: r5 => (parseObjElems fuel r5).map (fun p => ((k, v) :: p.1, p.2))
            | '\x7d' :: r5 => some ([(k, v)], r5)
            | _ => none
        | _ => none
    | _ => none

end

/-- Python `json.loads`: parse one JSON value and require only
whitespace after it. -/
def jsonLoads (s : Str) : Option Json :=
  (parseVal (s.length + 1) s).bind
    (fun p => if dropJWs p.2 = [] then some p.1 else none)

/-! ## Python `str()` of decoded JSON values -/

/-- Integer printed the Python way. -/
def intToStr (i : Int) : Str :=
  match i with
  | .ofNat n => Nat.toDigits 10 n
  | .negSucc n => '-' :: Nat.toDigits 10 (n + 1)

/-- Join rendered elements with `", "`, as Python container printing does. -/
def joinCommaSep (xs : List Str) : Str := List.intercalate (", ".toList) xs

mutual

/-- Python `repr()` of a `json.loads` result (used for elements inside
containers).  String escaping inside `repr` is not modelled; float
literals are printed as carried. -/
def pyRepr : Json → Str
  | .null => "None".toList
  | .bool true => "True".toList
  | .bool false => "False".toList
  | .num (.int i) => intToStr i
  | .num (.float lit) => lit
  | .str s => Char.ofNat 39 :: s ++ [Char.ofNat 39]
  | .arr xs => '[' :: joinCommaSep (pyReprList xs) ++ [']']
  | .obj fs => Char.ofNat 123 :: joinCommaSep (pyReprFields fs) ++ [Char.ofNat 125]

/-- `repr` of each element of a list. -/
def pyReprList : List Json → List Str
  | [] => []
  | x :: xs => pyRepr x :: pyReprList xs

/-- `repr(k): repr(v)` of each member of a dict. -/
def pyReprFields : List (Str × Json) → List Str
  | [] => []
  | (k, v) :: fs => (pyRepr (.str k) ++ ':' :: ' ' :: pyRepr v) :: pyReprFields fs

end

/-- Python `str()` of a `json.loads` result: strings print bare, all
other values print as their `repr`. -/
def pyStr : Json → Str
  | .str s => s
  | v => pyRepr v

/-! ## Role normalization (`_ROLE_MAP`, `_normalize_role`) -/

/-- The `_ROLE_MAP` table of `parser.py`. -/
def roleMap : List (Str × Str) :=
  [("user".toList, "user".toList),
   ("human".toList, "user".toList),
   ("customer".toList, "user".toList),
   ("assistant".toList, "assistant".toList),
   ("ai".toList, "assistant".toList),
   ("bot".toList, "assistant".toList),
   ("agent".toList, "assistant".toList),
   ("system".toList, "system".toList),
   ("tool".toList, "tool".toList),
   ("function".toList, "tool".toList)]

/-- `_normalize_role`: `_ROLE_MAP.get(raw.lower().strip(), raw.lower().strip())`. -/
def normalize_role (raw : Str) : Str :=
  let k := pyStrip (pyLower raw)
  match List.lookup k roleMap with
  | some v => v
  | none => k

/-! ## Data model (`Message`, `Session`) and errors -/

/-- A single message in a session (dataclass `Message`). -/
structure Message : Type where
  role : Str
  content : Str
  metadata : List (Str × Json) := []

/-- A parsed agent session (dataclass `Session`). -/
structure Session : Type where
  messages : List Message
  source : Str := []
  format_detected : Str := []

/-- The failure modes of the parsing core.  All constructors except
`pyCrash` are `ParseError` raise sites of `parser.py`, carrying the data
interpolated into the Python message; `pyCrash` models the uncaught
`AttributeError`/`TypeError` that `raw.lower()` on a non-string role (or
joining a non-string multi-part `"text"` value) would raise. -/
inductive PErr : Type
  | emptySession
  | invalidJson
  | notArray
  | itemNotObject (i : Nat)
  | invalidJsonLine (lineno : Nat)
  | noMessages (fmt : Str)
  | pyCrash

/-- The Python message text of each error (the trailing
`": {exc}"` detail of the JSON decode errors is elided; `pyCrash` is an
uncaught exception and has no `ParseError` message). -/
def PErr.message : PErr → Str
  | .emptySession => "Empty session log".toList
  | .invalidJson => "Invalid JSON".toList
  | .notArray => "JSON content is not an array".toList
  | .itemNotObject i => "Item ".toList ++ Nat.toDigits 10 i ++ " is not a JSON object".toList
  | .invalidJsonLine n => "Invalid JSON on line ".toList ++ Nat.toDigits 10 n
  | .noMessages fmt =>
      "No messages found in session log (detected format: ".toList ++ fmt ++ ")".toList
  | .pyCrash => "uncaught exception".toList

/-! ## Structured-array parser (`parse_json`) -/

/-- Python dict lookup on a decoded JSON object: on duplicate keys the
last occurrence wins, as in `json.loads`. -/
def lookupDict (fields : List (Str × Json)) (k : Str) : Option Json :=
  ((fields.filter (fun kv => kv.1 == k)).getLast?).map (fun kv => kv.2)

/-- Python `k in dict`. -/
def hasKeyB (fields : List (Str × Json)) (k : Str) : Bool :=
  fields.any (fun kv => kv.1 == k)

/-- The metadata dict `{k: v for k, v in item.items() if k not in ("role", "content")}`. -/
def metaOf (fields : List (Str × Json)) : List (Str × Json) :=
  fields.filter (fun kv => !(kv.1 == "role".toList || kv.1 == "content".toList))

/-- Extract the text parts of an OpenAI multi-part `content` list:
dict parts tagged `"type": "text"` contribute their `"text"` field, bare
strings contribute themselves, other parts are ignored.  `none` models
the `TypeError` Python would raise when joining a non-string `"text"`
value. -/
def partTexts : List Json → Option (List Str)
  | [] => some []
  | .str s :: ps => (partTexts ps).map (fun ts => s :: ts)
  | .obj f :: ps =>
    match lookupDict f "type".toList with
    | some (.str tv) =>
      if tv = "text".toList then
        match (lookupDict f "text".toList).getD (.str []) with
        | .str t => (partTexts ps).map (fun ts => t :: ts)
        | _ => none
      else partTexts ps
    | _ => partTexts ps
  | _ :: ps => partTexts ps

/-- The `content` extraction of `parse_json`: lists are unwrapped into
newline-joined text parts, other non-strings are stringified. -/
def contentOfJson (v : Json) : Option Str :=
  match v with
  | .str s => some s
  | .arr parts => (partTexts parts).map (fun ts => List.intercalate ['\n'] ts)
  | v => some (pyStr v)

/-- Build the `Message` of one structured-array element (a decoded JSON
object).  `none` models the uncaught Python crash on a non-string
`role` value. -/
def itemToMessage (f : List (Str × Json)) : Option Message :=
  match (lookupDict f "role".toList).getD (.str "unknown".toList) with
  | .str r =>
    match contentOfJson ((lookupDict f "content".toList).getD (.str [])) with
    | some c => some ⟨normalize_role r, c, metaOf f⟩
    | none => none
  | _ => none

/-- The element loop of `parse_json`, with the running element index. -/
def parse_json_items : Nat → List Json → Except PErr (List Message)
  | _, [] => .ok []
  | i, .obj f :: rest =>
    match itemToMessage f with
    | none => .error .pyCrash
    | some m => (parse_json_items (i + 1) rest).map (fun ms => m :: ms)
  | i, _ :: _ => .error (.itemNotObject i)

/-- `parse_json`: parse a JSON array of message objects. -/
def parse_json (content : Str) : Except PErr (List Message) :=
  match jsonLoads (pyStrip content) with
  | none => .error .invalidJson
  | some (.arr items) => parse_json_items 0 items
  | some _ => .error .notArray

/-! ## Line-delimited parser (`parse_jsonl`) -/

/-- Build the `Message` of one JSONL mapping line: same role handling as
`parse_json` but `content` is only stringified, never list-unwrapped. -/
def lineToMessage (f : List (Str × Json)) : Option Message :=
  match (lookupDict f "role".toList).getD (.str "unknown".toList) with
  | .str r =>
    let c := match (lookupDict f "content".toList).getD (.str []) with
      | .str s => s
      | v => pyStr v
    some ⟨normalize_role r, c, metaOf f⟩
  | _ => none

/-- The line loop of `parse_jsonl`, with the running 1-based line
number: blank lines are skipped, malformed lines raise with their line
number, well-formed non-mapping lines are skipped silently. -/
def jsonlGo : Nat → List Str → Except PErr (List Message)
  | _, [] => .ok []
  | n, l :: ls =>
    let t := pyStrip l
    if t = [] then jsonlGo (n + 1) ls
    else
      match jsonLoads t with
      | none => .error (.invalidJsonLine n)
      | some (.obj f) =>
        match lineToMessage f with
        | none => .error .pyCrash
        | some m => (jsonlGo (n + 1) ls).map (fun ms => m :: ms)
      | some _ => jsonlGo (n + 1) ls

/-- `parse_jsonl`: one JSON object per line of the stripped content. -/
def parse_jsonl (content : Str) : Except PErr (List Message) :=
  jsonlGo 1 (splitNl (pyStrip content))

/-! ## Generic-narrative parser (`parse_text`) -/

/-- Match one of a prefix-free list of lowercase labels as a
case-insensitive prefix of `s`; returns the matched slice (original
case) and the remainder.  Models the ordered alternation
`(User|Human|...)` of the role regexes under `re.IGNORECASE`. -/
def labelAt (s : Str) : List Str → Option (Str × Str)
  | [] => none
  | lbl :: rest =>
    if pyLower (s.take lbl.length) = lbl then some (s.take lbl.length, s.drop lbl.length)
    else labelAt s rest

/-- The labels of `parse_text`'s `role_pattern`, lowercase, in
alternation order. -/
def textLabels : List Str :=
  ["user".toList, "human".toList, "customer".toList, "assistant".toList,
   "ai".toList, "bot".toList, "agent".toList, "system".toList, "tool".toList]

/-- Consume the optional decoration `(?:\*\*|##\s*)?` of `role_pattern`
(the label alternatives all start with a letter, so the regex greedy
choice is deterministic here). -/
def roleDecorStrip (s : Str) : Str :=
  if strStarts "**".toList s then s.drop 2
  else if strStarts "##".toList s then
    let r := s.drop 2
    r.drop ((r.takeWhile pyIsSpace).length)
  else s

/-- Match `role_pattern` = `^(?:\*\*|##\s*)?(LABELS)(?:\*\*)?[:\s]*\n?` at a
line-start position: optional `**` or `##`+whitespace decoration, a
label, optional `**`, then a greedy run of colons/whitespace (which
subsumes the trailing `\n?`, `'\n'` being in `[:\s]`).  Returns the
captured label text, whether the match ends with a newline (the next
position then being a line start), and the remainder. -/
def matchRoleAt (s : Str) : Option (Str × Bool × Str) :=
  match labelAt (roleDecorStrip s) textLabels with
  | none => none
  | some (lbl, r2) =>
    let r3 := if strStarts "**".toList r2 then r2.drop 2 else r2
    let sep := r3.takeWhile (fun c => c = ':' || pyIsSpace c)
    some (lbl, sep.getLast? == some '\n', r3.drop sep.length)

/-- The splitting loop of `re.split(role_pattern, content)`: returns the
preamble before the first marker and the (captured role, body) pairs.
`lineStart` records whether the current position is at the start of a
line (MULTILINE `^`). -/
def scanRoles : Nat → Str → Bool → Str × List (Str × Str)
  | 0, s, _ => (s, [])
  | fuel + 1, s, lineStart =>
    match s with
    | [] => ([], [])
    | c :: cs =>
      if lineStart then
        match matchRoleAt s with
        | some (lbl, endNl, rest) =>
          let bp := scanRoles fuel rest endNl
          ([], (lbl, bp.1) :: bp.2)
        | none =>
          let pp := scanRoles fuel cs (c = '\n')
          (c :: pp.1, pp.2)
      else
        let pp := scanRoles fuel cs (c = '\n')
        (c :: pp.1, pp.2)

/-- The role-marker split of `parse_text` over the whole content. -/
def roleSplit (content : Str) : Str × List (Str × Str) :=
  scanRoles (content.length + 1) content true

/-- `parse_text`: split on role markers; with no marker, the whole
trimmed content becomes a single `unknown` message (or nothing when
blank); otherwise walk the (role, body) pairs, dropping empty bodies. -/
def parse_text (content : Str) : List Message :=
  let pairs := (roleSplit content).2
  if pairs = [] then
    let cleaned := pyStrip content
    if cleaned = [] then [] else [⟨"unknown".toList, cleaned, []⟩]
  else
    pairs.filterMap (fun rb =>
      let body := pyStrip rb.2
      if body = [] then none
      else some ⟨normalize_role (pyStrip rb.1), body, []⟩)

/-! ## Marker-narrative parser (`parse_nanobot`) -/

/-- The metadata keywords of the header regex
`^(session_id|agent|model|timestamp)\s*[:=].*$` (case-sensitive). -/
def metaKeywords : List Str :=
  ["session_id".toList, "agent".toList, "model".toList, "timestamp".toList]

/-- Match one of a prefix-free list of keywords as an exact prefix,
returning its length. -/
def kwAt (s : Str) : List Str → Option Nat
  | [] => none
  | k :: rest => if strStarts k s then some k.length else kwAt s rest

/-- Match the metadata-line regex at a line-start position, returning
the length of the match (keyword, greedy `\s*` which may span newlines,
one `:` or `=`, then `.*` up to the end of that line). -/
def metaMatchLen (s : Str) : Option Nat :=
  match kwAt s metaKeywords with
  | none => none
  | some k =>
    let r1 := s.drop k
    let w := r1.takeWhile pyIsSpace
    match r1.drop w.length with
    | c :: rest =>
      if c = ':' || c = '=' then
        some (k + w.length + 1 + (rest.takeWhile (fun x => !(x = '\n'))).length)
      else none
    | [] => none

/-- The `re.finditer` scan computing `header_end`: the maximal match end
of the metadata-line regex over the content (0 when no line matches).
`pos` is the absolute index of the current line-start suffix `s`. -/
def headerScan : Nat → Str → Nat → Nat → Nat
  | 0, _, _, best => best
  | fuel + 1, s, pos, best =>
    match s with
    | [] => best
    | _ :: _ =>
      match metaMatchLen s with
      | some n =>
        match s.drop n with
        | [] => max best (pos + n)
        | _ :: r => headerScan fuel r (pos + n + 1) (max best (pos + n))
      | none =>
        let a := s.takeWhile (fun c => !(c = '\n'))
        match s.drop a.length with
        | [] => best
        | _ :: r => headerScan fuel r (pos + a.length + 1) best

/-- `header_end` of `parse_nanobot`. -/
def headerEnd (content : Str) : Nat := headerScan (content.length + 1) content 0 0

/-- `re.search` of the metadata-line regex (used by the nanobot format
detector): does any line start a match? -/
def hasMetaScan : Nat → Str → Bool
  | 0, _ => false
  | fuel + 1, s =>
    match s with
    | [] => false
    | _ :: _ =>
      if (metaMatchLen s).isSome then true
      else
        let a := s.takeWhile (fun c => !(c = '\n'))
        match s.drop a.length with
        | [] => false
        | _ :: r => hasMetaScan fuel r

/-- Whether the content has a metadata header line. -/
def hasMetaLine (content : Str) : Bool := hasMetaScan (content.length + 1) content

/-- The labels of `section_pattern`, lowercase, in alternation order. -/
def sectionLabels : List Str :=
  ["human".toList, "assistant".toList, "user".toList,
   "ai".toList, "system".toList, "tool".toList]

/-- Match `section_pattern` = `^##\s*(Human|Assistant|User|AI|System|Tool)\s*$`
at a line-start position.  The trailing `\s*$` consumes, greedily, the
whitespace run after the label up to the end of the string, or up to
(but excluding) the last newline inside the run; with no newline and
text following, the match fails.  Returns the captured label text and
the remainder. -/
def matchSectionAt (s : Str) : Option (Str × Str) :=
  if strStarts "##".toList s then
    let r1 := s.drop 2
    let w := r1.takeWhile pyIsSpace
    match labelAt (r1.drop w.length) sectionLabels with
    | none => none
    | some (lbl, r3) =>
      let w2 := r3.takeWhile pyIsSpace
      if r3.drop w2.length = [] then some (lbl, [])
      else
        let m := (w2.reverse.takeWhile (fun c => !(c = '\n'))).length
        if m = w2.length then none
        else some (lbl, r3.drop (w2.length - m - 1))
  else none

/-- The splitting loop of `re.split(section_pattern, body)` (after a
section match the next character is a newline or the end, so the
next position is never a line start). -/
def scanSections : Nat → Str → Bool → Str × List (Str × Str)
  | 0, s, _ => (s, [])
  | fuel + 1, s, lineStart =>
    match s with
    | [] => ([], [])
    | c :: cs =>
      if lineStart then
        match matchSectionAt s with
        | some (lbl, rest) =>
          let bp := scanSections fuel rest false
          ([], (lbl, bp.1) :: bp.2)
        | none =>
          let pp := scanSections fuel cs (c = '\n')
          (c :: pp.1, pp.2)
      else
        let pp := scanSections fuel cs (c = '\n')
        (c :: pp.1, pp.2)

/-- Strip one trailing `\n---` separator, i.e. `re.sub(r"\n---\s*$", "", s)`
applied to an already-stripped string (so `\s*` can only match empty and
only the final occurrence can be anchored at `$`). -/
def subTrailingDashes (s : Str) : Str :=
  if strStarts "---\n".toList s.reverse then (s.reverse.drop 4).reverse else s

/-- The body of `parse_nanobot` after removing the metadata header. -/
def nanobotBody (content : Str) : Str := pyStrip (content.drop (headerEnd content))

/-- The message list built from the `##` sections (before the fallback). -/
def nanobotMsgs (content : Str) : List Message :=
  let body := nanobotBody content
  (scanSections (body.length + 1) body true).2.filterMap (fun rb =>
    let m2 := pyStrip (subTrailingDashes (pyStrip rb.2))
    if m2 = [] then none
    else some ⟨normalize_role (pyStrip rb.1), m2, []⟩)

/-- `parse_nanobot`: parse the `## Role` section format, falling back to
`parse_text` on the original content when no section yields a message. -/
def parse_nanobot (content : Str) : List Message :=
  let msgs := nanobotMsgs content
  if msgs.isEmpty then parse_text content else msgs

/-! ## Format detection (`detect_format`, `_is_nanobot_format`) -/

/-- The structured-array check of `detect_format`: content (stripped)
starts with `[`, parses as JSON, yields a non-empty array whose first
element is a mapping with a `role` or `content` key. -/
def jsonArrayOk (stripped : Str) : Bool :=
  strStarts "[".toList stripped &&
    match jsonLoads stripped with
    | some (.arr (first :: _)) =>
      match first with
      | .obj f => hasKeyB f "role".toList || hasKeyB f "content".toList
      | _ => false
    | _ => false

/-- The JSONL counting loop of `detect_format`: count lines parsing as
JSON mappings, skipping blank lines; a JSON-parse failure stops the loop
keeping the count accumulated so far (Python `break`). -/
def jsonlCountLoop : Nat → List Str → Nat
  | acc, [] => acc
  | acc, l :: ls =>
    let t := pyStrip l
    if t = [] then jsonlCountLoop acc ls
    else
      match jsonLoads t with
      | some (.obj _) => jsonlCountLoop (acc + 1) ls
      | some _ => jsonlCountLoop acc ls
      | none => acc

/-- The JSONL check of `detect_format`: run the counting loop over the
first 5 elements of `stripped.split("\n", 5)`. -/
def jsonlCountOf (stripped : Str) : Nat :=
  jsonlCountLoop 0 ((splitNlN 5 stripped).take 5)

/-- `_is_nanobot_format`: substring score over `"## Human"`,
`"## Assistant"`, `"---"`, plus 2 for a metadata header line; nanobot
when the score reaches 3. -/
def is_nanobot_format (content : Str) : Bool :=
  let score :=
    (if strContains "## Human".toList content then 1 else 0) +
    (if strContains "## Assistant".toList content then 1 else 0) +
    (if strContains "---".toList content then 1 else 0)
  let score := if hasMetaLine content then score + 2 else score
  decide (score ≥ 3)

/-- `detect_format`: classify into `"json"`, `"jsonl"`, `"nanobot"` or
`"text"`, in that precedence order. -/
def detect_format (content : Str) : Str :=
  let stripped := pyStrip content
  if jsonArrayOk stripped then "json".toList
  else if jsonlCountOf stripped ≥ 2 then "jsonl".toList
  else if is_nanobot_format stripped then "nanobot".toList
  else "text".toList

/-! ## Session assembly (`parse_session`) -/

/-- The `parser_map` dispatch of `parse_session` (unknown tags default
to `parse_text`); the narrative parsers never raise. -/
def parserFor (fmt : Str) (content : Str) : Except PErr (List Message) :=
  if fmt = "json".toList then parse_json content
  else if fmt = "jsonl".toList then parse_jsonl content
  else if fmt = "nanobot".toList then .ok (parse_nanobot content)
  else .ok (parse_text content)

/-- `parse_session`: reject empty/whitespace-only content, detect the
format, run the matching grammar parser, and reject an empty message
list, naming the detected format. -/
def parse_session (content : Str) (source : Str) : Except PErr Session :=
  if pyStrip content = [] then .error .emptySession
  else
    let fmt := detect_format content
    match parserFor fmt content with
    | .error e => .error e
    | .ok msgs =>
      if msgs.isEmpty then .error (.noMessages fmt)
      else .ok ⟨msgs, source, fmt⟩

/-! ## Specification-side definitions used to state the claims -/

/-- Claim-side reading (C4): the number of lines in `ls` that parse as
JSON mappings (no abort, blanks simply do not parse). -/
def specObjLineCount (ls : List Str) : Nat :=
  (ls.filter (fun l =>
    match jsonLoads (pyStrip l) with
    | some (.obj _) => true
    | _ => false)).length

/-- Claim-side reading (C4): the non-blank lines of a content string. -/
def nonBlankLines (content : Str) : List Str :=
  (splitNl content).filter (fun l => !(pyStrip l).isEmpty)

/-- Spec-side (C5/C10): the 1-based index, counting from `n`, of the
first non-blank line that fails to parse as JSON. -/
def firstBadFrom : Nat → List Str → Option Nat
  | _, [] => none
  | n, l :: ls =>
    let t := pyStrip l
    if t = [] then firstBadFrom (n + 1) ls
    else if (jsonLoads t).isNone then some n
    else firstBadFrom (n + 1) ls

/-- Spec-side (C10): 1-based index of the first malformed non-blank line. -/
def firstBadLine (ls : List Str) : Option Nat := firstBadFrom 1 ls

/-- A line is blank or parses as JSON (C5 hypothesis). -/
def lineOk (l : Str) : Prop :=
  pyStrip l = [] ∨ ∃ v, jsonLoads (pyStrip l) = some v

/-- A line, when it parses to a JSON mapping, builds a message without
hitting the Python crash on a non-string role (C5/C10 hypothesis). -/
def lineNoCrash (l : Str) : Prop :=
  ∀ f, jsonLoads (pyStrip l) = some (.obj f) → ∃ m, lineToMessage f = some m

/-- Spec-side (C5): what the claim says one JSONL line contributes:
blank lines and well-formed non-mapping lines nothing, mapping lines
exactly one message. -/
def jsonlLineSpec (l : Str) : Option Message :=
  let t := pyStrip l
  if t = [] then none
  else
    match jsonLoads t with
    | some (.obj f) => lineToMessage f
    | _ => none

/-- A `content` value the Python code can extract without crashing: in a
multi-part list, any part tagged `"type": "text"` must carry a string
(or absent) `"text"` field, else `"\n".join` raises an uncaught
`TypeError`.  Non-list content is always extractable. -/
def contentWellFormed : Json → Prop
  | .arr parts => ∀ p ∈ parts, ∀ f, p = .obj f →
      lookupDict f "type".toList = some (.str "text".toList) →
      ∀ v, lookupDict f "text".toList = some v → ∃ s, v = .str s
  | _ => True

/-- A JSON value that is a mapping with a string `role` field and a
well-formed `content` field (C2 hypothesis; a non-string `role` or an
ill-formed multi-part content makes the Python code raise an uncaught
`AttributeError`/`TypeError` instead of emitting a message). -/
def hasRoleAndContent (j : Json) : Prop :=
  ∃ f, j = .obj f ∧ (∃ r, lookupDict f "role".toList = some (.str r)) ∧
    ∃ c, lookupDict f "content".toList = some c ∧ contentWellFormed c

/-- The decoration alternatives of `parse_text`'s role regex:
empty, `**`, or `##` followed by whitespace (C8). -/
def textDecor (d : Str) : Prop :=
  d = [] ∨ d = "**".toList ∨ ∃ w, d = '#' :: '#' :: w ∧ ∀ c ∈ w, pyIsSpace c = true

/-- Whole-line whitespace content (C10 hypothesis on the prepended text). -/
def allWs (s : Str) : Prop := ∀ c ∈ s, pyIsSpace c = true

/-- The number of newline characters in a string: prepending a blank
line adds one (C10). -/
def countNl (s : Str) : Nat := (s.filter (fun c => c = '\n')).length

/-- A decoded mapping whose `role` field, if present, is a string (C5
hypothesis; a non-string role makes the Python code raise an uncaught
`AttributeError`). -/
def roleFieldOk (f : List (Str × Json)) : Prop :=
  ∀ v, lookupDict f "role".toList = some v → ∃ r, v = .str r

/-! ## Concrete inputs used by counterexamples and witnesses -/

/-- C1 counterexample input: detected as structured-array, but the
second element is not a mapping, so the grammar itself raises. -/
def cexC1 : Str := "[\x7b\"role\":\"user\"\x7d, 5]".toList

/-- C3 counterexample input: a structured-array element whose content is
empty. -/
def cexC3 : Str := "[\x7b\"role\":\"user\",\"content\":\"\"\x7d]".toList

/-- C4 counterexample input: two JSON-mapping lines separated by five
blank lines, so only one of them falls inside the 5-line window the
code inspects. -/
def cexC4 : Str := "\x7b\"a\":1\x7d\n\n\n\n\n\x7b\"b\":2\x7d".toList

/-- C6 scenario input: metadata line, two `##` sections, trailing `---`. -/
def inC6 : Str := "session_id: 42\n## Human\nDo X\n\n## Assistant\nDone\n---\n".toList

/-- C8 counterexample input: a line-start label with no separator after it. -/
def cexC8 : Str := "Userfix the bug".toList

/-- C5 witness input (error part): a mapping line followed by a
malformed line, so the error cites line 2. -/
def inW5a : Str := "\x7b\"role\":\"user\"\x7d\nnotjson".toList

/-- C5 witness input (success part): a single well-formed mapping line. -/
def inW5b : Str := "\x7b\"role\":\"user\",\"content\":\"hi\"\x7d".toList

/-- C10 witness input: a mapping line then a malformed line; two blank
lines are prepended in the witness, moving the original-input position
of the bad line from 2 to 4 while the cited number stays 2. -/
def inW10 : Str := "\x7b\"role\":\"user\",\"content\":\"a\"\x7d\n\x7bbad".toList

/-! ## Character- and string-level lemmas -/

theorem charToLower_idem (c : Char) : Char.toLower (Char.toLower c) = Char.toLower c := by
  unfold Char.toLower
  by_cases h : c.toNat ≥ 65 ∧ c.toNat ≤ 90
  · rw [if_pos h]
    obtain ⟨h1, h2⟩ := h
    set n := c.toNat with hn
    interval_cases n <;> decide
  · rw [if_neg h, if_neg h]

theorem pyIsSpace_toLower (c : Char) : pyIsSpace (Char.toLower c) = pyIsSpace c := by
  unfold Char.toLower
  by_cases h : c.toNat ≥ 65 ∧ c.toNat ≤ 90
  · rw [if_pos h]
    obtain ⟨h1, h2⟩ := h
    have hs : pyIsSpace c = false := by
      unfold pyIsSpace
      simp only [Bool.or_eq_false_iff, decide_eq_false_iff_not]
      refine ⟨⟨⟨⟨⟨?_, ?_⟩, ?_⟩, ?_⟩, ?_⟩, ?_⟩ <;> (intro he; subst he; exact absurd h1 (by decide))
    rw [hs]
    set n := c.toNat with hn
    interval_cases n <;> decide
  · rw [if_neg h]

theorem pyLower_idem (s : Str) : pyLower (pyLower s) = pyLower s := by
  unfold pyLower
  rw [List.map_map]
  exact List.map_congr_left (fun c _ => charToLower_idem c)

theorem pyIsSpace_comp_toLower : pyIsSpace ∘ Char.toLower = pyIsSpace :=
  funext pyIsSpace_toLower

theorem pyStrip_pyLower (s : Str) : pyStrip (pyLower s) = pyLower (pyStrip s) := by
  unfold pyStrip pyLower
  simp [List.dropWhile_map, ← List.map_reverse, pyIsSpace_comp_toLower]

theorem rdropWhile_dropWhile_self {p : Char → Bool} {x : List Char} (hx : x.dropWhile p = x) :
    (List.rdropWhile p x).dropWhile p = List.rdropWhile p x := by
  rcases h : List.rdropWhile p x with _ | ⟨c, t⟩
  · rfl
  · obtain ⟨rest, hrest⟩ := List.rdropWhile_prefix p x
    rw [h] at hrest
    have hc : p c = false := by
      rw [← hrest, List.cons_append, List.dropWhile_cons] at hx
      by_cases hpc : p c
      · rw [if_pos hpc] at hx
        have hle := (List.dropWhile_sublist (l := t ++ rest) (p := p)).length_le
        rw [hx] at hle
        simp at hle
      · exact Bool.of_not_eq_true hpc
    rw [List.dropWhile_cons, hc]
    simp

theorem pyStrip_idem (s : Str) : pyStrip (pyStrip s) = pyStrip s := by
  have h1 : ∀ t : Str, pyStrip t = List.rdropWhile pyIsSpace (t.dropWhile pyIsSpace) :=
    fun t => rfl
  rw [h1 (pyStrip s), h1 s]
  rw [rdropWhile_dropWhile_self (List.dropWhile_idempotent pyIsSpace s)]
  exact List.rdropWhile_idempotent _ _

/-! ## Role-normalizer lemmas and claim C9 -/

theorem lookup_mem_snd {A B : Type} [BEq A] (l : List (A × B)) (k : A) (v : B)
    (h : List.lookup k l = some v) : v ∈ l.map Prod.snd := by
  induction l with
  | nil => simp [List.lookup] at h
  | cons kv tl ih =>
    obtain ⟨k1, b⟩ := kv
    rw [List.lookup_cons] at h
    cases hb : k == k1 with
    | true =>
      rw [hb] at h
      simp only [Option.some.injEq] at h
      subst h
      exact List.mem_cons_self _ _
    | false =>
      rw [hb] at h
      exact List.mem_cons_of_mem _ (ih h)

theorem lookup_roleMap_canonical {k v : Str} (h : List.lookup k roleMap = some v) :
    v = "user".toList ∨ v = "assistant".toList ∨ v = "system".toList ∨ v = "tool".toList := by
  have hm := lookup_mem_snd roleMap k v h
  simp only [roleMap, List.map_cons, List.map_nil, List.mem_cons, List.not_mem_nil,
    or_false] at hm
  tauto

theorem normalize_role_eq (raw : Str) :
    normalize_role raw =
      ((List.lookup (pyStrip (pyLower raw)) roleMap).getD (pyStrip (pyLower raw))) := by
  unfold normalize_role
  cases h : List.lookup (pyStrip (pyLower raw)) roleMap <;> simp [h]

/-- C9: the role normalizer is a total function on strings (it is a Lean
function `Str → Str`); it is insensitive to case (lower-casing the input
does not change the result); it is idempotent on every string, hence in
particular on already-canonical roles; any label whose lower-cased,
trimmed form is outside the mapping table passes through as that
lower-cased trimmed form; and the mapping table sends
`user|human|customer` to `user`, `assistant|ai|bot|agent` to
`assistant`, `system` to `system` and `tool|function` to `tool`,
case-insensitively (`"USER"`, `"User"`, `"user"` all map to `"user"`). -/
theorem role_normalizer_spec :
    (∀ s : Str, normalize_role (pyLower s) = normalize_role s) ∧
    (∀ s : Str, normalize_role (normalize_role s) = normalize_role s) ∧
    (∀ s : Str, List.lookup (pyStrip (pyLower s)) roleMap = none →
       normalize_role s = pyStrip (pyLower s)) ∧
    (normalize_role "USER".toList = "user".toList ∧
     normalize_role "User".toList = "user".toList ∧
     normalize_role "user".toList = "user".toList ∧
     normalize_role "human".toList = "user".toList ∧
     normalize_role "Customer".toList = "user".toList ∧
     normalize_role "assistant".toList = "assistant".toList ∧
     normalize_role "AI".toList = "assistant".toList ∧
     normalize_role "bot".toList = "assistant".toList ∧
     normalize_role "Agent".toList = "assistant".toList ∧
     normalize_role "system".toList = "system".toList ∧
     normalize_role "tool".toList = "tool".toList ∧
     normalize_role "Function".toList = "tool".toList) := by
  refine ⟨?_, ?_, ?_, ?_⟩
  · intro s
    rw [normalize_role_eq, normalize_role_eq s, pyLower_idem]
  · intro s
    rw [normalize_role_eq s]
    cases h : List.lookup (pyStrip (pyLower s)) roleMap with
    | some v =>
      simp only [Option.getD_some]
      rcases lookup_roleMap_canonical h with hv | hv | hv | hv <;> subst hv <;> decide
    | none =>
      simp only [Option.getD_none]
      have hk : pyLower (pyStrip (pyLower s)) = pyStrip (pyLower s) := by
        rw [← pyStrip_pyLower, pyLower_idem]
      rw [normalize_role_eq, hk, pyStrip_idem, h]
      rfl
  · intro s h
    rw [normalize_role_eq, h]
    rfl
  · decide

/-- Witness for C9: a label outside the table (`" Manager "`) passes
through lower-cased and trimmed. -/
theorem role_normalizer_spec_witness :
    normalize_role " Manager ".toList = pyStrip (pyLower " Manager ".toList) :=
  role_normalizer_spec.2.2.1 " Manager ".toList (by decide)

/-! ## Claim C6: the marker-narrative end-to-end scenario -/

/-- C6: on input `"session_id: 42\n## Human\nDo X\n\n## Assistant\nDone\n---\n"`
the entry point detects the marker-narrative format (source tag
`"nanobot"`) and returns exactly two messages with roles `user` and
`assistant` and contents `"Do X"` and `"Done"`: the metadata header is
excluded, and the trailing `---` separator and surrounding whitespace
are stripped from each body. -/
theorem nanobot_scenario :
    parse_session inC6 [] =
      .ok ⟨[⟨"user".toList, "Do X".toList, []⟩, ⟨"assistant".toList, "Done".toList, []⟩],
           [], "nanobot".toList⟩ := rfl

/-! ## Claim C3: which parsers drop empty-content spans -/

/-- C3 counterexample: the structured-array parser emits a message whose
content is empty (`[{"role":"user","content":""}]`), so it is false that
every message emitted by any of the four grammar parsers has non-empty
content. -/
theorem parser_empty_content_cex :
    parse_json cexC3 = .ok [⟨"user".toList, [], []⟩] ∧
    (⟨"user".toList, [], []⟩ : Message).content = [] := ⟨rfl, rfl⟩

theorem text_messages_nonempty_content (content : Str) :
    ∀ m ∈ parse_text content, m.content ≠ [] := by
  intro m hm
  unfold parse_text at hm
  by_cases hp : (roleSplit content).2 = []
  · rw [if_pos hp] at hm
    by_cases hc : pyStrip content = []
    · rw [if_pos hc] at hm
      exact absurd hm (List.not_mem_nil m)
    · rw [if_neg hc] at hm
      rw [List.mem_singleton] at hm
      subst hm
      exact hc
  · rw [if_neg hp] at hm
    rw [List.mem_filterMap] at hm
    obtain ⟨rb, _, hf⟩ := hm
    by_cases hb : pyStrip rb.2 = []
    · rw [if_pos hb] at hf
      exact absurd hf (Option.some_ne_none _).symm
    · rw [if_neg hb] at hf
      simp only [Option.some.injEq] at hf
      subst hf
      exact hb

theorem nanobot_msgs_nonempty_content (content : Str) :
    ∀ m ∈ nanobotMsgs content, m.content ≠ [] := by
  intro m hm
  unfold nanobotMsgs at hm
  rw [List.mem_filterMap] at hm
  obtain ⟨rb, _, hf⟩ := hm
  by_cases hb : pyStrip (subTrailingDashes (pyStrip rb.2)) = []
  · rw [if_pos hb] at hf
    exact absurd hf (Option.some_ne_none _).symm
  · rw [if_neg hb] at hf
    simp only [Option.some.injEq] at hf
    subst hf
    exact hb

/-- C3 amended: the two narrative parsers (generic-narrative and
marker-narrative) drop empty-content spans, so every message they emit
has non-empty content, for all inputs; the structured-array and
line-delimited parsers do not filter empty content (per the
counterexample). -/
theorem narrative_nonempty_content :
    (∀ content : Str, ∀ m ∈ parse_text content, m.content ≠ []) ∧
    (∀ content : Str, ∀ m ∈ parse_nanobot content, m.content ≠ []) := by
  refine ⟨text_messages_nonempty_content, ?_⟩
  intro content m hm
  unfold parse_nanobot at hm
  by_cases he : (nanobotMsgs content).isEmpty
  · rw [if_pos he] at hm
    exact text_messages_nonempty_content content m hm
  · rw [if_neg he] at hm
    exact nanobot_msgs_nonempty_content content m hm

/-- Witness for C3 (amended): the message that the generic-narrative
parser emits on `"User: hi"` has non-empty content. -/
theorem narrative_nonempty_content_witness :
    (⟨"user".toList, "hi".toList, []⟩ : Message).content ≠ [] := by
  apply narrative_nonempty_content.1 "User: hi".toList
  rw [show parse_text "User: hi".toList = [⟨"user".toList, "hi".toList, []⟩] from rfl]
  exact List.mem_singleton.mpr rfl

/-! ## Claim C7: the narrative fallback -/

theorem scanSections_no_hash (fuel : Nat) :
    ∀ (s : Str) (ls : Bool), strContains "##".toList s = false →
      (scanSections fuel s ls).2 = [] := by
  induction fuel with
  | zero => intro s ls _; rfl
  | succ fuel ih =>
    intro s ls h
    cases s with
    | nil => rfl
    | cons c cs =>
      rw [strContains, Bool.or_eq_false_iff] at h
      obtain ⟨h1, h2⟩ := h
      have hms : matchSectionAt (c :: cs) = none := by
        unfold matchSectionAt
        rw [show strStarts "##".toList (c :: cs) = false from h1]
        rfl
      cases hls : ls
      · show (scanSections (fuel + 1) (c :: cs) false).2 = []
        unfold scanSections
        simp only []
        exact ih cs (c = '\n') h2
      · show (scanSections (fuel + 1) (c :: cs) true).2 = []
        unfold scanSections
        simp only [hms]
        exact ih cs (c = '\n') h2

/-- C7: whenever the marker-narrative parser produces zero section
messages it returns the generic-narrative parse of the original,
un-header-stripped content; in particular it does so whenever the
header-stripped body contains no `##` at all (hence no section marker).
The other grammar parsers contain no fallback call (see
`session_failure_modes` for the dispatch: each tag runs exactly one
parser). -/
theorem nanobot_fallback :
    (∀ content : Str, nanobotMsgs content = [] → parse_nanobot content = parse_text content) ∧
    (∀ content : Str, strContains "##".toList (nanobotBody content) = false →
       parse_nanobot content = parse_text content) := by
  constructor
  · intro content h
    unfold parse_nanobot
    rw [h]
    rfl
  · intro content h
    have hmsgs : nanobotMsgs content = [] := by
      have he : nanobotMsgs content =
          ((scanSections ((nanobotBody content).length + 1) (nanobotBody content) true).2).filterMap
            (fun rb =>
              let m2 := pyStrip (subTrailingDashes (pyStrip rb.2))
              if m2 = [] then none
              else some ⟨normalize_role (pyStrip rb.1), m2, []⟩) := rfl
      rw [he, scanSections_no_hash _ _ _ h]
      rfl
    unfold parse_nanobot
    rw [hmsgs]
    rfl

/-- Witness for C7: a content with no `##` marker falls back to the
generic-narrative parser. -/
theorem nanobot_fallback_witness :
    parse_nanobot "hello there".toList = parse_text "hello there".toList :=
  nanobot_fallback.2 "hello there".toList (by decide)

/-! ## Claim C8: the generic-narrative role markers -/

theorem labelAt_some {s lbl r : Str} {cands : List Str}
    (h : labelAt s cands = some (lbl, r)) :
    ∃ cand ∈ cands, pyLower lbl = cand ∧ s = lbl ++ r := by
  induction cands with
  | nil => exact absurd h (by simp [labelAt])
  | cons cand rest ih =>
    rw [labelAt] at h
    by_cases hc : pyLower (s.take cand.length) = cand
    · rw [if_pos hc] at h
      simp only [Option.some.injEq, Prod.mk.injEq] at h
      obtain ⟨h1, h2⟩ := h
      subst h1
      subst h2
      exact ⟨cand, List.mem_cons_self _ _, hc, (List.take_append_drop _ s).symm⟩
    · rw [if_neg hc] at h
      obtain ⟨c2, hm, hl, he⟩ := ih h
      exact ⟨c2, List.mem_cons_of_mem _ hm, hl, he⟩

theorem labelAt_isSome {s : Str} {cands : List Str}
    (h : ∃ cand ∈ cands, pyLower (s.take cand.length) = cand) :
    (labelAt s cands).isSome = true := by
  induction cands with
  | nil => simp at h
  | cons cand rest ih =>
    rw [labelAt]
    by_cases hc : pyLower (s.take cand.length) = cand
    · rw [if_pos hc]; rfl
    · rw [if_neg hc]
      apply ih
      obtain ⟨c2, hm, he⟩ := h
      rcases List.mem_cons.mp hm with rfl | hm2
      · exact absurd he hc
      · exact ⟨c2, hm2, he⟩

theorem head_facts {c a : Char} (h : Char.toLower c = a)
    (ha : a ∈ ['u', 'h', 'c', 'a', 'b', 's', 't']) :
    c ≠ '*' ∧ c ≠ '#' ∧ pyIsSpace c = false := by
  refine ⟨?_, ?_, ?_⟩
  · rintro rfl
    subst h
    exact absurd ha (by decide)
  · rintro rfl
    subst h
    exact absurd ha (by decide)
  · by_contra hs
    rw [Bool.not_eq_false] at hs
    have h6 : c = ' ' ∨ c = '\t' ∨ c = '\n' ∨ c = '\r' ∨ c = '\x0b' ∨ c = '\x0c' := by
      unfold pyIsSpace at hs
      simp only [Bool.or_eq_true, decide_eq_true_eq] at hs
      tauto
    rcases h6 with rfl | rfl | rfl | rfl | rfl | rfl <;>
      (subst h; exact absurd ha (by decide))

theorem textLabels_head {l cand : Str} (hc : cand ∈ textLabels) (hl : pyLower l = cand) :
    ∃ c t, l = c :: t ∧ c ≠ '*' ∧ c ≠ '#' ∧ pyIsSpace c = false := by
  cases l with
  | nil =>
    exfalso
    rw [show pyLower [] = ([] : Str) from rfl] at hl
    subst hl
    exact absurd hc (by decide)
  | cons c t =>
    refine ⟨c, t, rfl, ?_⟩
    have hm9 := hc
    simp only [textLabels, List.mem_cons, List.not_mem_nil, or_false] at hm9
    rcases hm9 with rfl | rfl | rfl | rfl | rfl | rfl | rfl | rfl | rfl <;>
      (injection congrArg List.head? hl with h1
       exact head_facts h1 (by decide))

theorem takeWhile_all_append {p : Char → Bool} {w x : List Char} (hw : ∀ c ∈ w, p c = true)
    (hx : ∀ c t, x = c :: t → p c = false) : (w ++ x).takeWhile p = w := by
  induction w with
  | nil =>
    cases hx2 : x with
    | nil => rfl
    | cons c t =>
      simp [List.takeWhile_cons, hx c t hx2]
  | cons a w2 ih =>
    simp [List.cons_append, List.takeWhile_cons, hw a (List.mem_cons_self _ _),
      ih (fun c hc => hw c (List.mem_cons_of_mem _ hc))]

theorem matchRoleAt_isSome_of_labelAt {s : Str}
    (h : (labelAt (roleDecorStrip s) textLabels).isSome = true) :
    (matchRoleAt s).isSome = true := by
  unfold matchRoleAt
  cases hla : labelAt (roleDecorStrip s) textLabels with
  | none => rw [hla] at h; simp at h
  | some p => obtain ⟨lbl, r2⟩ := p; rfl

theorem labelAt_take_cond (l r : Str) :
    pyLower ((l ++ r).take (pyLower l).length) = pyLower l := by
  have hlen : (pyLower l).length = l.length := List.length_map _ _
  rw [hlen, List.take_left]

theorem matchRoleAt_isSome_iff (s : Str) :
    (matchRoleAt s).isSome = true ↔
      ∃ d l r, s = d ++ (l ++ r) ∧ textDecor d ∧ pyLower l ∈ textLabels := by
  constructor
  · intro h
    unfold matchRoleAt at h
    cases hla : labelAt (roleDecorStrip s) textLabels with
    | none => rw [hla] at h; simp at h
    | some p =>
      obtain ⟨lbl, r2⟩ := p
      obtain ⟨cand, hcand, hlow, hsplit⟩ := labelAt_some hla
      have hmem : pyLower lbl ∈ textLabels := by rw [hlow]; exact hcand
      unfold roleDecorStrip at hsplit
      by_cases hA : strStarts "**".toList s
      · rw [if_pos hA] at hsplit
        obtain ⟨t, ht⟩ := List.isPrefixOf_iff_prefix.mp hA
        have hts : t = s.drop 2 := by rw [← ht]; rfl
        refine ⟨"**".toList, lbl, r2, ?_, Or.inr (Or.inl rfl), hmem⟩
        rw [← ht, hts, hsplit]
      · rw [if_neg hA] at hsplit
        by_cases hB : strStarts "##".toList s
        · rw [if_pos hB] at hsplit
          simp only [] at hsplit
          obtain ⟨t, ht⟩ := List.isPrefixOf_iff_prefix.mp hB
          have hts : t = s.drop 2 := by rw [← ht]; rfl
          set w := ((s.drop 2).takeWhile pyIsSpace) with hw
          have hwpre : w = (s.drop 2).take w.length :=
            List.prefix_iff_eq_take.mp (List.takeWhile_prefix pyIsSpace)
          have hdec : s.drop 2 = w ++ (lbl ++ r2) := by
            conv_lhs => rw [← List.take_append_drop w.length (s.drop 2)]
            rw [← hwpre, hsplit]
          refine ⟨'#' :: '#' :: w, lbl, r2, ?_, ?_, hmem⟩
          · rw [← ht, hts, hdec]
            rfl
          · refine Or.inr (Or.inr ⟨w, rfl, fun c hc => ?_⟩)
            exact List.mem_takeWhile_imp hc
        · rw [if_neg hB] at hsplit
          exact ⟨[], lbl, r2, by rw [List.nil_append, hsplit], Or.inl rfl, hmem⟩
  · rintro ⟨d, l, r, rfl, hd, hl⟩
    obtain ⟨c, t, rfl, hstar, hhash, hws⟩ := textLabels_head hl rfl
    apply matchRoleAt_isSome_of_labelAt
    have hbstar : ('*' == c) = false := beq_eq_false_iff_ne.mpr (Ne.symm hstar)
    have hbhash : ('#' == c) = false := beq_eq_false_iff_ne.mpr (Ne.symm hhash)
    rcases hd with rfl | rfl | ⟨w, rfl, hw⟩
    · have h1 : strStarts "**".toList ([] ++ (c :: t ++ r)) = false := by
        simp [strStarts, List.isPrefixOf, hbstar]
      have h2 : strStarts "##".toList ([] ++ (c :: t ++ r)) = false := by
        simp [strStarts, List.isPrefixOf, hbhash]
      unfold roleDecorStrip
      rw [h1, h2]
      simp only [Bool.false_eq_true, if_false, List.nil_append]
      exact labelAt_isSome ⟨pyLower (c :: t), hl, labelAt_take_cond _ r⟩
    · have h1 : strStarts "**".toList ("**".toList ++ (c :: t ++ r)) = true := rfl
      unfold roleDecorStrip
      rw [h1]
      simp only [if_true]
      rw [show ("**".toList ++ (c :: t ++ r)).drop 2 = c :: t ++ r from rfl]
      exact labelAt_isSome ⟨pyLower (c :: t), hl, labelAt_take_cond _ r⟩
    · have hsform : ('#' :: '#' :: w) ++ (c :: t ++ r) = '#' :: '#' :: (w ++ (c :: t ++ r)) := rfl
      have h1 : strStarts "**".toList ('#' :: '#' :: (w ++ (c :: t ++ r))) = false := rfl
      have h2 : strStarts "##".toList ('#' :: '#' :: (w ++ (c :: t ++ r))) = true := by
        simp [strStarts, List.isPrefixOf]
      unfold roleDecorStrip
      rw [hsform, h1, h2]
      simp only [Bool.false_eq_true, if_false, if_true]
      rw [show ('#' :: '#' :: (w ++ (c :: t ++ r))).drop 2 = w ++ (c :: t ++ r) from rfl]
      rw [takeWhile_all_append hw (fun c2 t2 he => by
        injection he with he1 _
        rw [← he1]
        exact hws)]
      rw [List.drop_left]
      exact labelAt_isSome ⟨pyLower (c :: t), hl, labelAt_take_cond _ r⟩

/-- C8 counterexample: on `"Userfix the bug"` the line-start label
`User` is not followed by any colon or whitespace separator, yet the
generic-narrative parser still treats it as a role marker (the
separator run `[:\s]*` may be empty), producing a `user` message with
body `"fix the bug"` instead of the single `unknown` message the claim
would require. -/
theorem role_marker_no_separator_cex :
    (parse_text cexC8).map Message.role = ["user".toList] ∧
    (parse_text cexC8).map Message.content = ["fix the bug".toList] ∧
    ¬((parse_text cexC8).map Message.role = ["unknown".toList]) := by
  refine ⟨rfl, rfl, fun h => ?_⟩
  rw [show (parse_text cexC8).map Message.role = ["user".toList] from rfl] at h
  exact absurd h (by decide)

/-- C8 amended: the generic-narrative parser splits content on role
markers at line starts consisting of optional leading `**` or
`##`+whitespace decoration and one of the labels
`User|Human|Customer|Assistant|AI|Bot|Agent|System|Tool`
(case-insensitive); the run of colon/whitespace separator characters
after the label (with optional `**`) may be empty, so a bare line-start
label is already a marker.  The marker matcher succeeds at a position
exactly when the text there decomposes as decoration, then a label,
then anything.  Text before the first marker is discarded as preamble
(concrete conjunct). -/
theorem role_marker_amended :
    (∀ s : Str, (matchRoleAt s).isSome = true ↔
       ∃ d l r, s = d ++ (l ++ r) ∧ textDecor d ∧ pyLower l ∈ textLabels) ∧
    parse_text "intro line\nUser: hi".toList = [⟨"user".toList, "hi".toList, []⟩] :=
  ⟨matchRoleAt_isSome_iff, rfl⟩

theorem role_marker_amended_witness :
    (matchRoleAt "AI hello".toList).isSome = true :=
  (role_marker_amended.1 "AI hello".toList).mpr
    ⟨[], "AI".toList, " hello".toList, rfl, Or.inl rfl, by decide⟩

/-! ## Claim C1: failure modes of the entry point -/

theorem isPrefixOf_append_self {n b : Str} : n.isPrefixOf (n ++ b) = true :=
  List.isPrefixOf_iff_prefix.mpr ⟨b, rfl⟩

theorem strContains_append_mid (a n b : Str) : strContains n (a ++ (n ++ b)) = true := by
  induction a with
  | nil =>
    rw [List.nil_append]
    cases hn : n ++ b with
    | nil =>
      have hn0 : n = [] := (List.append_eq_nil.mp hn).1
      subst hn0
      rfl
    | cons c cs =>
      rw [strContains, ← hn, isPrefixOf_append_self]
      rfl
  | cons x a2 ih =>
    rw [List.cons_append, strContains, ih]
    simp

theorem parse_session_eq (content source : Str) :
    parse_session content source =
      (if pyStrip content = [] then .error .emptySession
       else
         match parserFor (detect_format content) content with
         | .error e => .error e
         | .ok msgs =>
           if msgs.isEmpty then .error (.noMessages (detect_format content))
           else .ok ⟨msgs, source, detect_format content⟩) := rfl

/-- C1 counterexample: on `[{"role":"user"}, 5]` the entry point fails
with a `ParseError` (the structured-array grammar raises on the
non-mapping element 1), yet the content is not whitespace-only and the
selected grammar did not produce zero messages -- it raised.  So the
claim's "fails exactly when empty or zero-messages" biconditional is
false. -/
theorem session_failure_cex :
    ¬ ((∃ e, parse_session cexC1 [] = .error e) →
       pyStrip cexC1 = [] ∨ parserFor (detect_format cexC1) cexC1 = .ok []) := by
  intro h
  rcases h ⟨.itemNotObject 1, rfl⟩ with h1 | h2
  · exact absurd h1 (by decide)
  · rw [show parserFor (detect_format cexC1) cexC1 = .error (.itemNotObject 1) from rfl] at h2
    exact Except.noConfusion h2

/-- C1 amended: `parse_session` either returns a `Session` whose
message list is non-empty (carrying the source label and the detected
format, with the messages exactly the selected grammar's output) or
fails; it fails exactly when the content is empty/whitespace-only, or
the selected grammar raises, or the selected grammar produces zero
messages; in the zero-messages case the error is `noMessages` and its
message text names the detected format tag.  A `Session` with an empty
message list is never returned. -/
theorem session_failure_modes (content source : Str) :
    ((∃ s, parse_session content source = .ok s) ∨
     (∃ e, parse_session content source = .error e)) ∧
    (∀ s, parse_session content source = .ok s →
       s.messages ≠ [] ∧ s.source = source ∧ s.format_detected = detect_format content ∧
       parserFor (detect_format content) content = .ok s.messages) ∧
    ((∃ e, parse_session content source = .error e) ↔
       pyStrip content = [] ∨
       (∃ e, parserFor (detect_format content) content = .error e) ∨
       parserFor (detect_format content) content = .ok []) ∧
    (pyStrip content ≠ [] → parserFor (detect_format content) content = .ok [] →
       parse_session content source = .error (.noMessages (detect_format content)) ∧
       strContains (detect_format content)
         (PErr.message (.noMessages (detect_format content))) = true) := by
  have hmsg : strContains (detect_format content)
      (PErr.message (.noMessages (detect_format content))) = true := by
    rw [show PErr.message (.noMessages (detect_format content)) =
      "No messages found in session log (detected format: ".toList ++
        (detect_format content ++ ")".toList) from by
        rw [PErr.message, List.append_assoc]]
    exact strContains_append_mid _ _ _
  by_cases hs : pyStrip content = []
  · have hps : parse_session content source = .error .emptySession := by
      rw [parse_session_eq, if_pos hs]
    refine ⟨Or.inr ⟨_, hps⟩, ?_, ?_, ?_⟩
    · intro s h
      rw [hps] at h
      exact Except.noConfusion h
    · exact ⟨fun _ => Or.inl hs, fun _ => ⟨_, hps⟩⟩
    · intro hns _
      exact absurd hs hns
  · cases hF : parserFor (detect_format content) content with
    | error e =>
      have hps : parse_session content source = .error e := by
        rw [parse_session_eq, if_neg hs, hF]
      refine ⟨Or.inr ⟨_, hps⟩, ?_, ?_, ?_⟩
      · intro s h
        rw [hps] at h
        exact Except.noConfusion h
      · exact ⟨fun _ => Or.inr (Or.inl ⟨e, rfl⟩), fun _ => ⟨_, hps⟩⟩
      · intro _ hok
        exact Except.noConfusion hok
    | ok msgs =>
      cases hm : msgs with
      | nil =>
        have hps : parse_session content source =
            .error (.noMessages (detect_format content)) := by
          rw [parse_session_eq, if_neg hs, hF, hm]
          rfl
        refine ⟨Or.inr ⟨_, hps⟩, ?_, ?_, ?_⟩
        · intro s h
          rw [hps] at h
          exact Except.noConfusion h
        · exact ⟨fun _ => Or.inr (Or.inr rfl), fun _ => ⟨_, hps⟩⟩
        · intro _ _
          exact ⟨hps, hmsg⟩
      | cons m ms =>
        have hps : parse_session content source =
            .ok ⟨m :: ms, source, detect_format content⟩ := by
          rw [parse_session_eq, if_neg hs, hF, hm]
          rfl
        refine ⟨Or.inl ⟨_, hps⟩, ?_, ?_, ?_⟩
        · intro s h
          rw [hps] at h
          injection h with h2
          subst h2
          exact ⟨List.cons_ne_nil m ms, rfl, rfl, rfl⟩
        · constructor
          · rintro ⟨e, he⟩
            rw [hps] at he
            exact Except.noConfusion he
          · rintro (h1 | ⟨e, h2⟩ | h3)
            · exact absurd h1 hs
            · exact Except.noConfusion h2
            · injection h3 with h4
              exact absurd h4 (List.cons_ne_nil m ms)
        · intro _ hok
          injection hok with h4
          exact absurd h4 (List.cons_ne_nil m ms)

theorem session_failure_modes_witness :
    parse_session "User:\nAssistant:".toList [] =
      .error (.noMessages (detect_format "User:\nAssistant:".toList)) ∧
    strContains (detect_format "User:\nAssistant:".toList)
      (PErr.message (.noMessages (detect_format "User:\nAssistant:".toList))) = true :=
  (session_failure_modes "User:\nAssistant:".toList []).2.2.2 (by decide) rfl

/-! ## Claim C4: the line-delimited detector window -/

theorem splitNl_eq_cons (s : Str) :
    splitNl s = (s.takeWhile (fun c => !(c = '\n'))) ::
      (match s.drop (s.takeWhile (fun c => !(c = '\n'))).length with
       | [] => []
       | _ :: r => splitNl r) := by
  induction s with
  | nil => rfl
  | cons c cs ih =>
    by_cases hc : c = '\n'
    · subst hc
      rw [splitNl]
      simp only [List.takeWhile_cons]
      norm_num
    · have ha : (c :: cs).takeWhile (fun x => !(x = '\n')) =
          c :: cs.takeWhile (fun x => !(x = '\n')) := by
        rw [List.takeWhile_cons]
        simp [hc]
      rw [splitNl, if_neg hc, ih, ha]
      simp only [List.length_cons, List.drop_succ_cons]

theorem take_splitNlN (n : Nat) : ∀ s : Str, (splitNlN n s).take n = (splitNl s).take n := by
  induction n with
  | zero => intro s; rfl
  | succ n ih =>
    intro s
    rw [splitNlN]
    cases h : s.drop (s.takeWhile (fun c => !(c = '\n'))).length with
    | nil =>
      rw [splitNl_eq_cons s, h]
    | cons x r =>
      rw [splitNl_eq_cons s, h]
      simp only [List.take_succ_cons]
      rw [ih r]

theorem detect_format_eq (content : Str) :
    detect_format content =
      (if jsonArrayOk (pyStrip content) then "json".toList
       else if jsonlCountOf (pyStrip content) ≥ 2 then "jsonl".toList
       else if is_nanobot_format (pyStrip content) then "nanobot".toList
       else "text".toList) := rfl

/-- C4 counterexample: `'{"a":1}' ++ five newlines ++ '{"b":2}'` has 2
JSON mappings among its first 5 non-blank lines (there are only two
non-blank lines) and is not itself a JSON array, yet `detect_format`
returns `"text"`, not `"jsonl"`: the code's window is the first 5 raw
lines of the split, and here four of those are blank. -/
theorem line_delimited_window_cex :
    specObjLineCount ((nonBlankLines (pyStrip cexC4)).take 5) = 2 ∧
    (jsonLoads (pyStrip cexC4)).isNone = true ∧
    detect_format cexC4 = "text".toList ∧
    detect_format cexC4 ≠ "jsonl".toList := by
  refine ⟨rfl, rfl, rfl, ?_⟩
  intro h
  rw [show detect_format cexC4 = "text".toList from rfl] at h
  exact absurd h (by decide)

/-- C4 amended: when the structured-array check does not match,
`detect_format` classifies as line-delimited exactly when running the
counting loop over the first 5 raw lines of the stripped content
(blank lines among them are skipped but still consume window slots, and
a JSON-parse failure aborts the count, keeping what was accumulated)
yields at least 2 JSON mappings.  Stated over the plain line split; the
equivalence with the code's `split("\n", 5)` window is part of the
proof (`take_splitNlN`). -/
theorem detect_jsonl_amended (content : Str) :
    detect_format content = "jsonl".toList ↔
      jsonArrayOk (pyStrip content) = false ∧
      jsonlCountLoop 0 ((splitNl (pyStrip content)).take 5) ≥ 2 := by
  have hcount : jsonlCountOf (pyStrip content) =
      jsonlCountLoop 0 ((splitNl (pyStrip content)).take 5) := by
    unfold jsonlCountOf
    rw [take_splitNlN]
  rw [detect_format_eq]
  by_cases hA : jsonArrayOk (pyStrip content)
  · rw [if_pos hA]
    constructor
    · intro h
      exact absurd h (by decide)
    · rintro ⟨h1, _⟩
      rw [hA] at h1
      exact Bool.noConfusion h1
  · rw [if_neg hA]
    by_cases hJ : jsonlCountOf (pyStrip content) ≥ 2
    · rw [if_pos hJ]
      refine ⟨fun _ => ⟨Bool.eq_false_iff.mpr hA, ?_⟩, fun _ => rfl⟩
      rw [← hcount]
      exact hJ
    · rw [if_neg hJ]
      constructor
      · intro h
        by_cases hN : is_nanobot_format (pyStrip content)
        · rw [if_pos hN] at h
          exact absurd h (by decide)
        · rw [if_neg hN] at h
          exact absurd h (by decide)
      · rintro ⟨_, h2⟩
        rw [← hcount] at h2
        exact absurd h2 hJ

theorem detect_jsonl_amended_witness :
    detect_format "\x7b\"a\":1\x7d\n\x7b\"b\":2\x7d".toList = "jsonl".toList :=
  (detect_jsonl_amended "\x7b\"a\":1\x7d\n\x7b\"b\":2\x7d".toList).mpr ⟨rfl, by decide⟩

theorem parseNumCore_num {neg : Bool} {cs : Str} {v : Json} {r : Str}
    (h : parseNumCore neg cs = some (v, r)) : ∃ n, v = .num n := by
  cases cs with
  | nil => exact absurd h (by simp [parseNumCore])
  | cons d tail =>
    simp only [parseNumCore] at h
    by_cases hd : (!d.isDigit) = true
    · rw [if_pos hd] at h
      exact Option.noConfusion h
    · rw [if_neg hd] at h
      injection h with h2
      obtain ⟨h3, -⟩ := Prod.mk.injEq .. ▸ h2
      exact ⟨_, h3.symm⟩

theorem parseNum_num {cs : Str} {v : Json} {r : Str} (h : parseNum cs = some (v, r)) :
    ∃ n, v = .num n := by
  unfold parseNum at h
  split at h
  · exact parseNumCore_num h
  · exact parseNumCore_num h

theorem parseVal_arr_head {fuel : Nat} {s : Str} {items : List Json} {r : Str}
    (h : parseVal fuel s = some (.arr items, r)) :
    ∃ t, dropJWs s = '[' :: t := by
  cases fuel with
  | zero => exact absurd h (by simp [parseVal])
  | succ fuel =>
    unfold parseVal at h
    split at h
    · exact absurd h (by simp)
    · rename_i c rest heq
      by_cases h1 : c = '\x7b'
      · rw [if_pos h1] at h
        split at h
        · injection h with h2
          obtain ⟨h3, -⟩ := Prod.mk.injEq .. ▸ h2
          exact Json.noConfusion h3
        · rw [Option.map_eq_some'] at h
          obtain ⟨p, _, hp⟩ := h
          obtain ⟨h3, -⟩ := Prod.mk.injEq .. ▸ hp
          exact Json.noConfusion h3
      · rw [if_neg h1] at h
        by_cases h2 : c = '['
        · subst h2
          exact ⟨rest, heq⟩
        · rw [if_neg h2] at h
          by_cases h3 : c = '\"'
          · rw [if_pos h3] at h
            rw [Option.map_eq_some'] at h
            obtain ⟨p, _, hp⟩ := h
            obtain ⟨h3, -⟩ := Prod.mk.injEq .. ▸ hp
            exact Json.noConfusion h3
          · rw [if_neg h3] at h
            by_cases h4 : c = 't'
            · rw [if_pos h4] at h
              by_cases hb : strStarts "rue".toList rest = true
              · rw [if_pos hb] at h
                injection h with h2
                obtain ⟨h3, -⟩ := Prod.mk.injEq .. ▸ h2
                exact Json.noConfusion h3
              · rw [if_neg hb] at h
                exact Option.noConfusion h
            · rw [if_neg h4] at h
              by_cases h5 : c = 'f'
              · rw [if_pos h5] at h
                by_cases hb : strStarts "alse".toList rest = true
                · rw [if_pos hb] at h
                  injection h with h2
                  obtain ⟨h3, -⟩ := Prod.mk.injEq .. ▸ h2
                  exact Json.noConfusion h3
                · rw [if_neg hb] at h
                  exact Option.noConfusion h
              · rw [if_neg h5] at h
                by_cases h6 : c = 'n'
                · rw [if_pos h6] at h
                  by_cases hb : strStarts "ull".toList rest = true
                  · rw [if_pos hb] at h
                    injection h with h2
                    obtain ⟨h3, -⟩ := Prod.mk.injEq .. ▸ h2
                    exact Json.noConfusion h3
                  · rw [if_neg hb] at h
                    exact Option.noConfusion h
                · rw [if_neg h6] at h
                  by_cases h7 : c = '-' || c.isDigit
                  · rw [if_pos h7] at h
                    obtain ⟨n, hn⟩ := parseNum_num h
                    exact Json.noConfusion hn
                  · rw [if_neg h7] at h
                    exact absurd h (by simp)

theorem jsonLoads_arr_head {s : Str} {items : List Json}
    (h : jsonLoads s = some (.arr items)) : ∃ t, dropJWs s = '[' :: t := by
  unfold jsonLoads at h
  cases hp : parseVal (s.length + 1) s with
  | none =>
    rw [hp, Option.none_bind] at h
    exact Option.noConfusion h
  | some p =>
    obtain ⟨v, r⟩ := p
    rw [hp, Option.some_bind] at h
    by_cases he : dropJWs r = []
    · rw [if_pos he] at h
      injection h with h2
      subst h2
      exact parseVal_arr_head hp
    · rw [if_neg he] at h
      exact Option.noConfusion h

theorem dropWhile_cons_self {p : Char → Bool} {c : Char} {t : List Char}
    (h : List.dropWhile p (c :: t) = c :: t) : p c = false := by
  by_cases hpc : p c
  · rw [List.dropWhile_cons, if_pos hpc] at h
    have hle := (List.dropWhile_sublist (l := t) (p := p)).length_le
    rw [h] at hle
    simp at hle
  · exact Bool.of_not_eq_true hpc

theorem isJWs_pyIsSpace {c : Char} (h : isJWs c = true) : pyIsSpace c = true := by
  unfold isJWs at h
  simp only [Bool.or_eq_true, decide_eq_true_eq] at h
  rcases h with ((rfl | rfl) | rfl) | rfl <;> decide

theorem dropJWs_pyStrip (s : Str) : dropJWs (pyStrip s) = pyStrip s := by
  cases h : pyStrip s with
  | nil => rfl
  | cons c t =>
    have hself : List.dropWhile pyIsSpace (pyStrip s) = pyStrip s := by
      have h1 : pyStrip s = List.rdropWhile pyIsSpace (s.dropWhile pyIsSpace) := rfl
      rw [h1]
      exact rdropWhile_dropWhile_self (List.dropWhile_idempotent pyIsSpace s)
    rw [h] at hself
    have hp : pyIsSpace c = false := dropWhile_cons_self hself
    have hj : isJWs c = false := by
      by_contra hj2
      rw [Bool.not_eq_false] at hj2
      rw [isJWs_pyIsSpace hj2] at hp
      exact Bool.noConfusion hp
    unfold dropJWs
    rw [List.dropWhile_cons, hj]
    simp

theorem lookupDict_hasKeyB {f : List (Str × Json)} {k : Str} {v : Json}
    (h : lookupDict f k = some v) : hasKeyB f k = true := by
  unfold lookupDict at h
  rw [Option.map_eq_some'] at h
  obtain ⟨kv, hlast, _⟩ := h
  have hmem := List.mem_of_getLast?_eq_some hlast
  rw [List.mem_filter] at hmem
  exact List.any_eq_true.mpr ⟨kv, hmem.1, hmem.2⟩

theorem partTexts_ok {parts : List Json}
    (h : ∀ p ∈ parts, ∀ f, p = .obj f →
      lookupDict f "type".toList = some (.str "text".toList) →
      ∀ v, lookupDict f "text".toList = some v → ∃ s, v = .str s) :
    ∃ ts, partTexts parts = some ts := by
  induction parts with
  | nil => exact ⟨[], rfl⟩
  | cons p rest ih =>
    obtain ⟨ts, hts⟩ := ih (fun q hq => h q (List.mem_cons_of_mem _ hq))
    cases p with
    | str s2 => exact ⟨s2 :: ts, by rw [partTexts, hts] <;> simp⟩
    | obj f =>
      cases hty : lookupDict f "type".toList with
      | none => exact ⟨ts, by rw [partTexts, hty, hts] <;> simp⟩
      | some tv =>
        cases tv with
        | str tvs =>
          by_cases htvs : tvs = "text".toList
          · subst htvs
            cases htx : lookupDict f "text".toList with
            | none => exact ⟨[] :: ts, by rw [partTexts, hty, htx, hts] <;> simp⟩
            | some v =>
              obtain ⟨s2, rfl⟩ := h (.obj f) (List.mem_cons_self _ _) f rfl hty v htx
              exact ⟨s2 :: ts, by rw [partTexts, hty, htx, hts] <;> simp⟩
          · refine ⟨ts, ?_⟩
            rw [partTexts, hty]
            show (if tvs = "text".toList then
                match (lookupDict f "text".toList).getD (.str []) with
                | .str t => (partTexts rest).map (fun ts => t :: ts)
                | _ => none
              else partTexts rest) = some ts
            rw [if_neg htvs, hts]
        | null => exact ⟨ts, by rw [partTexts, hty, hts] <;> simp⟩
        | bool b => exact ⟨ts, by rw [partTexts, hty, hts] <;> simp⟩
        | num n => exact ⟨ts, by rw [partTexts, hty, hts] <;> simp⟩
        | arr xs => exact ⟨ts, by rw [partTexts, hty, hts] <;> simp⟩
        | obj f2 => exact ⟨ts, by rw [partTexts, hty, hts] <;> simp⟩
    | null => exact ⟨ts, by rw [partTexts, hts] <;> simp⟩
    | bool b => exact ⟨ts, by rw [partTexts, hts] <;> simp⟩
    | num n => exact ⟨ts, by rw [partTexts, hts] <;> simp⟩
    | arr xs => exact ⟨ts, by rw [partTexts, hts] <;> simp⟩

theorem contentOfJson_ok {c : Json} (h : contentWellFormed c) :
    ∃ s, contentOfJson c = some s := by
  cases c with
  | arr parts =>
    obtain ⟨ts, hts⟩ := partTexts_ok h
    exact ⟨_, by rw [contentOfJson, hts]; rfl⟩
  | str s => exact ⟨s, rfl⟩
  | null => exact ⟨_, rfl⟩
  | bool b => exact ⟨_, rfl⟩
  | num n => exact ⟨_, rfl⟩
  | obj f => exact ⟨_, rfl⟩

theorem itemToMessage_ok {f : List (Str × Json)}
    (hr : ∃ r, lookupDict f "role".toList = some (.str r))
    (hc : ∃ c, lookupDict f "content".toList = some c ∧ contentWellFormed c) :
    ∃ m, itemToMessage f = some m := by
  obtain ⟨r, hr⟩ := hr
  obtain ⟨c, hc1, hc2⟩ := hc
  obtain ⟨s, hs⟩ := contentOfJson_ok hc2
  refine ⟨⟨normalize_role r, s, metaOf f⟩, ?_⟩
  unfold itemToMessage
  rw [show (lookupDict f "role".toList).getD (.str "unknown".toList) = .str r from by
    rw [hr]; rfl]
  rw [show (lookupDict f "content".toList).getD (.str []) = c from by rw [hc1]; rfl]
  rw [hs]

theorem parse_json_items_ok {items : List Json}
    (h : ∀ j ∈ items, hasRoleAndContent j) :
    ∀ i, ∃ msgs, parse_json_items i items = .ok msgs ∧
      List.Forall₂ (fun j m => ∃ f, j = .obj f ∧ itemToMessage f = some m) items msgs := by
  induction items with
  | nil => exact fun i => ⟨[], rfl, List.Forall₂.nil⟩
  | cons j rest ih =>
    intro i
    obtain ⟨f, rfl, hr, hc⟩ := h j (List.mem_cons_self _ _)
    obtain ⟨m, hm⟩ := itemToMessage_ok hr hc
    obtain ⟨msgs, hmsgs, hfa⟩ := ih (fun q hq => h q (List.mem_cons_of_mem _ hq)) (i + 1)
    refine ⟨m :: msgs, ?_, List.Forall₂.cons ⟨f, rfl, hm⟩ hfa⟩
    rw [parse_json_items, hm, hmsgs]
    rfl

theorem jsonArrayOk_of {content : Str} {items : List Json}
    (hload : jsonLoads (pyStrip content) = some (.arr items))
    (hfirst : ∀ j ∈ items, hasRoleAndContent j) (hne : items ≠ []) :
    jsonArrayOk (pyStrip content) = true := by
  obtain ⟨t, ht⟩ := jsonLoads_arr_head hload
  rw [dropJWs_pyStrip] at ht
  cases items with
  | nil => exact absurd rfl hne
  | cons first rest =>
    obtain ⟨f, rfl, ⟨r, hr⟩, _⟩ := hfirst first (List.mem_cons_self _ _)
    unfold jsonArrayOk
    rw [hload, ht]
    show (strStarts "[".toList ('[' :: t) &&
      (hasKeyB f "role".toList || hasKeyB f "content".toList)) = true
    rw [show hasKeyB f "role".toList = true from lookupDict_hasKeyB hr,
      show strStarts "[".toList ('[' :: t) = true from isPrefixOf_append_self]
    rfl

/-- C2: for every string whose stripped form is a valid JSON array of
mappings, each carrying a string `role` field and a well-formed
`content` field, with at least one element, the detector classifies the
structured-array format (tag `"json"`), and the structured-array parser
emits exactly one message per array element, in array order
(`List.Forall₂` ties each element to its message), regardless of
whether any element's content is empty after extraction. -/
theorem structured_array_spec (content : Str) (items : List Json)
    (hload : jsonLoads (pyStrip content) = some (.arr items))
    (hne : items ≠ [])
    (hall : ∀ j ∈ items, hasRoleAndContent j) :
    detect_format content = "json".toList ∧
    ∃ msgs, parse_json content = .ok msgs ∧ msgs.length = items.length ∧
      List.Forall₂ (fun j m => ∃ f, j = .obj f ∧ itemToMessage f = some m) items msgs := by
  have hok := jsonArrayOk_of hload hall hne
  constructor
  · rw [detect_format_eq, if_pos hok]
  · obtain ⟨msgs, hmsgs, hfa⟩ := parse_json_items_ok hall 0
    refine ⟨msgs, ?_, hfa.length_eq.symm, hfa⟩
    unfold parse_json
    rw [hload]
    exact hmsgs

/-- Witness for C2: a one-element array whose content is the empty
string still produces exactly one message. -/
theorem structured_array_spec_witness :
    detect_format cexC3 = "json".toList ∧
    ∃ msgs, parse_json cexC3 = .ok msgs ∧
      msgs.length = [Json.obj [("role".toList, .str "user".toList),
        ("content".toList, .str [])]].length ∧
      List.Forall₂ (fun j m => ∃ f, j = .obj f ∧ itemToMessage f = some m)
        [Json.obj [("role".toList, .str "user".toList), ("content".toList, .str [])]] msgs :=
  structured_array_spec cexC3
    [Json.obj [("role".toList, .str "user".toList), ("content".toList, .str [])]]
    rfl (List.cons_ne_nil _ _)
    (fun j hj => by
      rw [List.mem_singleton] at hj
      subst hj
      exact ⟨_, rfl, ⟨"user".toList, rfl⟩, ⟨.str [], rfl, trivial⟩⟩)

theorem jsonlGo_cons_eq (n : Nat) (l : Str) (ls : List Str) :
    jsonlGo n (l :: ls) =
      (if pyStrip l = [] then jsonlGo (n + 1) ls
       else
         match jsonLoads (pyStrip l) with
         | none => .error (.invalidJsonLine n)
         | some (.obj f) =>
           match lineToMessage f with
           | none => .error .pyCrash
           | some m => (jsonlGo (n + 1) ls).map (fun ms => m :: ms)
         | some _ => jsonlGo (n + 1) ls) := rfl

theorem except_map_error {E A B : Type} {f : A → B} {x : Except E A} {e : E}
    (h : x.map f = .error e) : x = .error e := by
  cases x with
  | error e2 => injection h with h2; rw [h2]
  | ok a => exact Except.noConfusion h

theorem jsonlGo_error_firstBad {ls : List Str} :
    ∀ {n j : Nat}, jsonlGo n ls = .error (.invalidJsonLine j) →
      firstBadFrom n ls = some j := by
  induction ls with
  | nil => intro n j h; exact Except.noConfusion h
  | cons l ls ih =>
    intro n j h
    rw [jsonlGo_cons_eq] at h
    rw [firstBadFrom]
    by_cases hb : pyStrip l = []
    · rw [if_pos hb] at h
      rw [if_pos hb]
      exact ih h
    · rw [if_neg hb] at h
      rw [if_neg hb]
      cases hl : jsonLoads (pyStrip l) with
      | none =>
        rw [hl] at h
        injection h with h2
        injection h2 with h3
        show some n = some j
        rw [h3]
      | some v =>
        rw [hl] at h
        show firstBadFrom (n + 1) ls = some j
        cases v with
        | obj f =>
          have h2 : (match lineToMessage f with
              | none => Except.error PErr.pyCrash
              | some m => Except.map (fun ms => m :: ms) (jsonlGo (n + 1) ls)) =
              Except.error (PErr.invalidJsonLine j) := h
          cases hm : lineToMessage f with
          | none =>
            rw [hm] at h2
            injection h2 with h3
            exact PErr.noConfusion h3
          | some m =>
            rw [hm] at h2
            exact ih (except_map_error h2)
        | null => exact ih h
        | bool b => exact ih h
        | num nn => exact ih h
        | str s2 => exact ih h
        | arr xs => exact ih h

theorem lineToMessage_content {f : List (Str × Json)} {v : Json}
    (hv : lookupDict f "content".toList = some v) (hns : ∀ s, v ≠ .str s)
    (hrole : roleFieldOk f) :
    ∃ m, lineToMessage f = some m ∧ m.content = pyStr v := by
  unfold lineToMessage
  have hgetc : (lookupDict f "content".toList).getD (.str []) = v := by rw [hv]; rfl
  cases hr : lookupDict f "role".toList with
  | none =>
    refine ⟨⟨normalize_role "unknown".toList, pyStr v, metaOf f⟩, ?_, rfl⟩
    rw [hgetc]
    cases v with
    | str s => exact absurd rfl (hns s)
    | null => rfl
    | bool b => rfl
    | num n => rfl
    | arr xs => rfl
    | obj f2 => rfl
  | some rv =>
    obtain ⟨r, rfl⟩ := hrole rv hr
    refine ⟨⟨normalize_role r, pyStr v, metaOf f⟩, ?_, rfl⟩
    rw [hgetc]
    cases v with
    | str s => exact absurd rfl (hns s)
    | null => rfl
    | bool b => rfl
    | num n => rfl
    | arr xs => rfl
    | obj f2 => rfl

theorem jsonlGo_cons_blank (n : Nat) (l : Str) (ls : List Str)
    (hb : pyStrip l = []) : jsonlGo n (l :: ls) = jsonlGo (n + 1) ls := by
  rw [jsonlGo_cons_eq, if_pos hb]

theorem jsonlGo_cons_obj (n : Nat) (l : Str) (ls : List Str)
    (f : List (Str × Json)) (m : Message)
    (hb : pyStrip l ≠ []) (hv : jsonLoads (pyStrip l) = some (.obj f))
    (hm : lineToMessage f = some m) :
    jsonlGo n (l :: ls) = (jsonlGo (n + 1) ls).map (fun ms => m :: ms) := by
  rw [jsonlGo_cons_eq, if_neg hb, hv]
  have h2 : (match lineToMessage f with
      | none => Except.error PErr.pyCrash
      | some m => Except.map (fun ms => m :: ms) (jsonlGo (n + 1) ls)) =
      Except.map (fun ms => m :: ms) (jsonlGo (n + 1) ls) := by rw [hm]
  exact h2

theorem jsonlGo_cons_nonobj (n : Nat) (l : Str) (ls : List Str) (v : Json)
    (hb : pyStrip l ≠ []) (hv : jsonLoads (pyStrip l) = some v)
    (hno : ∀ f, v ≠ .obj f) :
    jsonlGo n (l :: ls) = jsonlGo (n + 1) ls := by
  rw [jsonlGo_cons_eq, if_neg hb, hv]
  cases v with
  | obj f => exact absurd rfl (hno f)
  | null => rfl
  | bool b => rfl
  | num nn => rfl
  | str s => rfl
  | arr xs => rfl

theorem jsonlLineSpec_obj (l : Str) (f : List (Str × Json))
    (hb : pyStrip l ≠ []) (hv : jsonLoads (pyStrip l) = some (.obj f)) :
    jsonlLineSpec l = lineToMessage f := by
  unfold jsonlLineSpec
  rw [if_neg hb, hv]

theorem jsonlLineSpec_nonobj (l : Str) (v : Json)
    (hb : pyStrip l ≠ []) (hv : jsonLoads (pyStrip l) = some v)
    (hno : ∀ f, v ≠ .obj f) :
    jsonlLineSpec l = none := by
  unfold jsonlLineSpec
  rw [if_neg hb, hv]
  cases v with
  | obj f => exact absurd rfl (hno f)
  | null => rfl
  | bool b => rfl
  | num nn => rfl
  | str s => rfl
  | arr xs => rfl

theorem jsonlGo_error_append (pre : List Str) (bad : Str) (rest : List Str)
    (hok : ∀ l ∈ pre, lineOk l ∧ lineNoCrash l)
    (hbad1 : pyStrip bad ≠ []) (hbad2 : jsonLoads (pyStrip bad) = none) :
    ∀ n, jsonlGo n (pre ++ bad :: rest) = .error (.invalidJsonLine (n + pre.length)) := by
  induction pre with
  | nil =>
    intro n
    rw [List.nil_append, jsonlGo_cons_eq, if_neg hbad1, hbad2]
    rfl
  | cons l pre ih =>
    intro n
    obtain ⟨hOk, hNc⟩ := hok l (List.mem_cons_self _ _)
    have ih2 := ih (fun q hq => hok q (List.mem_cons_of_mem _ hq))
    have hlen : n + (l :: pre).length = (n + 1) + pre.length := by
      simp only [List.length_cons]; omega
    rw [List.cons_append, hlen]
    by_cases hb : pyStrip l = []
    · rw [jsonlGo_cons_blank _ _ _ hb]
      exact ih2 (n + 1)
    · rcases hOk with hblank | ⟨v, hv⟩
      · exact absurd hblank hb
      · cases v with
        | obj f =>
          obtain ⟨m, hm⟩ := hNc f hv
          rw [jsonlGo_cons_obj _ _ _ _ _ hb hv hm, ih2 (n + 1)]
          rfl
        | null => rw [jsonlGo_cons_nonobj _ _ _ _ hb hv (by intro f h; cases h)]; exact ih2 _
        | bool b => rw [jsonlGo_cons_nonobj _ _ _ _ hb hv (by intro f h; cases h)]; exact ih2 _
        | num nn => rw [jsonlGo_cons_nonobj _ _ _ _ hb hv (by intro f h; cases h)]; exact ih2 _
        | str s2 => rw [jsonlGo_cons_nonobj _ _ _ _ hb hv (by intro f h; cases h)]; exact ih2 _
        | arr xs => rw [jsonlGo_cons_nonobj _ _ _ _ hb hv (by intro f h; cases h)]; exact ih2 _

theorem jsonlGo_ok_filterMap (ls : List Str)
    (hok : ∀ l ∈ ls, lineOk l ∧ lineNoCrash l) :
    ∀ n, jsonlGo n ls = .ok (ls.filterMap jsonlLineSpec) := by
  induction ls with
  | nil => intro n; rfl
  | cons l ls ih =>
    intro n
    obtain ⟨hOk, hNc⟩ := hok l (List.mem_cons_self _ _)
    have ih2 := ih (fun q hq => hok q (List.mem_cons_of_mem _ hq))
    rw [List.filterMap_cons]
    by_cases hb : pyStrip l = []
    · rw [jsonlGo_cons_blank _ _ _ hb,
        show jsonlLineSpec l = none from by unfold jsonlLineSpec; rw [if_pos hb]]
      exact ih2 (n + 1)
    · rcases hOk with hblank | ⟨v, hv⟩
      · exact absurd hblank hb
      · cases v with
        | obj f =>
          obtain ⟨m, hm⟩ := hNc f hv
          rw [jsonlGo_cons_obj _ _ _ _ _ hb hv hm, ih2 (n + 1),
            jsonlLineSpec_obj _ _ hb hv, hm]
          rfl
        | null =>
          rw [jsonlGo_cons_nonobj _ _ _ _ hb hv (by intro f h; cases h),
            jsonlLineSpec_nonobj _ _ hb hv (by intro f h; cases h)]
          exact ih2 _
        | bool b =>
          rw [jsonlGo_cons_nonobj _ _ _ _ hb hv (by intro f h; cases h),
            jsonlLineSpec_nonobj _ _ hb hv (by intro f h; cases h)]
          exact ih2 _
        | num nn =>
          rw [jsonlGo_cons_nonobj _ _ _ _ hb hv (by intro f h; cases h),
            jsonlLineSpec_nonobj _ _ hb hv (by intro f h; cases h)]
          exact ih2 _
        | str s2 =>
          rw [jsonlGo_cons_nonobj _ _ _ _ hb hv (by intro f h; cases h),
            jsonlLineSpec_nonobj _ _ hb hv (by intro f h; cases h)]
          exact ih2 _
        | arr xs =>
          rw [jsonlGo_cons_nonobj _ _ _ _ hb hv (by intro f h; cases h),
            jsonlLineSpec_nonobj _ _ hb hv (by intro f h; cases h)]
          exact ih2 _

theorem splitNl_ne_nil (s : Str) : splitNl s ≠ [] := by
  cases s with
  | nil => simp [splitNl]
  | cons c cs =>
    rw [splitNl]
    by_cases hc : c = '\n'
    · rw [if_pos hc]; simp
    · rw [if_neg hc]
      cases splitNl cs <;> simp

theorem splitNl_cons_nl (t : Str) : splitNl ('\n' :: t) = [] :: splitNl t := by
  rw [splitNl]
  simp

theorem splitNl_cons_other {c : Char} (hc : ¬ c = '\n') (t : Str) {h : Str} {r : List Str}
    (ht : splitNl t = h :: r) : splitNl (c :: t) = (c :: h) :: r := by
  rw [splitNl, if_neg hc, ht]

theorem countNl_cons_nl (p : Str) : countNl ('\n' :: p) = countNl p + 1 := by
  simp [countNl, List.filter_cons]

theorem countNl_cons_other {c : Char} (hc : ¬ c = '\n') (p : Str) :
    countNl (c :: p) = countNl p := by
  simp [countNl, List.filter_cons, hc]

theorem firstBadFrom_cons_eq (n : Nat) (l : Str) (ls : List Str) :
    firstBadFrom n (l :: ls) =
      (if pyStrip l = [] then firstBadFrom (n + 1) ls
       else if (jsonLoads (pyStrip l)).isNone then some n
       else firstBadFrom (n + 1) ls) := rfl

theorem pyStrip_cons_ws {c : Char} (hc : pyIsSpace c = true) (s : Str) :
    pyStrip (c :: s) = pyStrip s := by
  unfold pyStrip
  simp [List.dropWhile_cons, hc]

theorem firstBadFrom_consHead_ws {c : Char} (hc : pyIsSpace c = true)
    (n : Nat) (h : Str) (t : List Str) :
    firstBadFrom n ((c :: h) :: t) = firstBadFrom n (h :: t) := by
  rw [firstBadFrom_cons_eq, firstBadFrom_cons_eq, pyStrip_cons_ws hc]

theorem firstBadFrom_ws_prepend {pre : Str} (hpre : allWs pre) :
    ∀ s n, firstBadFrom n (splitNl (pre ++ s)) = firstBadFrom (n + countNl pre) (splitNl s) := by
  induction pre with
  | nil => intro s n; simp [countNl]
  | cons c p ih =>
    intro s n
    have hc : pyIsSpace c = true := hpre c (List.mem_cons_self _ _)
    have hp : allWs p := fun x hx => hpre x (List.mem_cons_of_mem _ hx)
    have ih2 := ih hp
    by_cases hnl : c = '\n'
    · subst hnl
      rw [List.cons_append, splitNl_cons_nl, countNl_cons_nl,
        firstBadFrom_cons_eq, if_pos (show pyStrip ([] : Str) = [] by decide), ih2 s (n + 1)]
      congr 1
      omega
    · rcases hsp : splitNl (p ++ s) with _ | ⟨h, r⟩
      · exact absurd hsp (splitNl_ne_nil _)
      · rw [List.cons_append, splitNl_cons_other hnl _ hsp, countNl_cons_other hnl,
          firstBadFrom_consHead_ws hc, ← hsp, ih2 s n]

theorem dropWhile_allWs {w : Str} (hw : allWs w) : w.dropWhile pyIsSpace = [] :=
  List.dropWhile_eq_nil_iff.mpr (fun x hx => hw x hx)

theorem pyStrip_allWs {l : Str} (h : allWs l) : pyStrip l = [] := by
  unfold pyStrip
  rw [dropWhile_allWs h]
  rfl

theorem allWs_splitNl {w : Str} (hw : allWs w) : ∀ l ∈ splitNl w, allWs l := by
  induction w with
  | nil =>
    intro l hl
    simp [splitNl] at hl
    subst hl
    intro c hc
    cases hc
  | cons c t ih =>
    intro l hl
    have hc : pyIsSpace c = true := hw c (List.mem_cons_self _ _)
    have ht : allWs t := fun x hx => hw x (List.mem_cons_of_mem _ hx)
    by_cases hnl : c = '\n'
    · subst hnl
      rw [splitNl_cons_nl] at hl
      rcases List.mem_cons.mp hl with h1 | h1
      · subst h1; intro x hx; cases hx
      · exact ih ht l h1
    · rcases hsp : splitNl t with _ | ⟨h, r⟩
      · exact absurd hsp (splitNl_ne_nil _)
      · rw [splitNl_cons_other hnl _ hsp] at hl
        rcases List.mem_cons.mp hl with h1 | h1
        · subst h1
          intro x hx
          rcases List.mem_cons.mp hx with h2 | h2
          · subst h2; exact hc
          · exact ih ht h (by rw [hsp]; exact List.mem_cons_self _ _) x h2
        · exact ih ht l (by rw [hsp]; exact List.mem_cons_of_mem _ h1)

theorem firstBadFrom_allWs_none {ls : List Str} (h : ∀ l ∈ ls, allWs l) :
    ∀ n, firstBadFrom n ls = none := by
  induction ls with
  | nil => intro n; rfl
  | cons l t ih =>
    intro n
    rw [firstBadFrom_cons_eq, if_pos (pyStrip_allWs (h l (List.mem_cons_self _ _)))]
    exact ih (fun x hx => h x (List.mem_cons_of_mem _ hx)) (n + 1)

theorem pyStrip_append_ws {w : Str} (hw : allWs w) (s : Str) :
    pyStrip (s ++ w) = pyStrip s := by
  unfold pyStrip
  rw [List.dropWhile_append]
  by_cases hd : (s.dropWhile pyIsSpace).isEmpty
  · rw [if_pos hd, dropWhile_allWs hw]
    rw [List.isEmpty_iff] at hd
    rw [hd]
  · rw [if_neg hd, List.reverse_append,
      List.dropWhile_append_of_pos (fun a ha => hw a (List.mem_reverse.mp ha))]

theorem pyStrip_ws_prepend {pre : Str} (hpre : allWs pre) (content : Str) :
    pyStrip (pre ++ content) = pyStrip content := by
  unfold pyStrip
  rw [List.dropWhile_append_of_pos (fun a ha => hpre a ha)]

theorem splitNl_append_ws {w : Str} (hw : allWs w) :
    ∀ s : Str, ∃ D g w1 extra,
      splitNl s = D ++ [g] ∧ splitNl (s ++ w) = D ++ (g ++ w1) :: extra ∧
      allWs w1 ∧ ∀ l ∈ extra, allWs l := by
  intro s
  induction s with
  | nil =>
    rcases hsp : splitNl w with _ | ⟨h, r⟩
    · exact absurd hsp (splitNl_ne_nil _)
    · refine ⟨[], [], h, r, rfl, ?_, ?_, ?_⟩
      · rw [List.nil_append, List.nil_append, List.nil_append, hsp]
      · exact allWs_splitNl hw h (by rw [hsp]; exact List.mem_cons_self _ _)
      · intro l hl
        exact allWs_splitNl hw l (by rw [hsp]; exact List.mem_cons_of_mem _ hl)
  | cons c t ih =>
    obtain ⟨D, g, w1, extra, h1, h2, h3, h4⟩ := ih
    by_cases hnl : c = '\n'
    · subst hnl
      refine ⟨[] :: D, g, w1, extra, ?_, ?_, h3, h4⟩
      · rw [splitNl_cons_nl, h1]
        rfl
      · rw [List.cons_append, splitNl_cons_nl, h2]
        rfl
    · cases D with
      | nil =>
        rw [List.nil_append] at h1 h2
        refine ⟨[], c :: g, w1, extra, ?_, ?_, h3, h4⟩
        · rw [splitNl_cons_other hnl _ h1]
          rfl
        · rw [List.cons_append, splitNl_cons_other hnl _ h2, List.nil_append,
            List.cons_append]
      | cons d D2 =>
        rw [List.cons_append] at h1 h2
        refine ⟨(c :: d) :: D2, g, w1, extra, ?_, ?_, h3, h4⟩
        · rw [splitNl_cons_other hnl _ h1]
          rfl
        · rw [List.cons_append, splitNl_cons_other hnl _ h2]
          rfl

theorem firstBadFrom_pad {w1 : Str} (hw1 : allWs w1) {extra : List Str}
    (hex : ∀ l ∈ extra, allWs l) (g : Str) :
    ∀ (D : List Str) (n : Nat),
      firstBadFrom n (D ++ (g ++ w1) :: extra) = firstBadFrom n (D ++ [g]) := by
  intro D
  induction D with
  | nil =>
    intro n
    rw [List.nil_append, List.nil_append, firstBadFrom_cons_eq, firstBadFrom_cons_eq,
      pyStrip_append_ws hw1]
    by_cases hb : pyStrip g = []
    · rw [if_pos hb, if_pos hb, firstBadFrom_allWs_none hex]
      rfl
    · rw [if_neg hb, if_neg hb]
      by_cases hj : (jsonLoads (pyStrip g)).isNone
      · rw [if_pos hj, if_pos hj]
      · rw [if_neg hj, if_neg hj, firstBadFrom_allWs_none hex]
        rfl
  | cons d D ih =>
    intro n
    rw [List.cons_append, List.cons_append, firstBadFrom_cons_eq, firstBadFrom_cons_eq]
    by_cases hb : pyStrip d = []
    · rw [if_pos hb, if_pos hb, ih]
    · rw [if_neg hb, if_neg hb]
      by_cases hj : (jsonLoads (pyStrip d)).isNone
      · rw [if_pos hj, if_pos hj]
      · rw [if_neg hj, if_neg hj, ih]

theorem firstBadFrom_append_ws {w : Str} (hw : allWs w) (s : Str) (n : Nat) :
    firstBadFrom n (splitNl (s ++ w)) = firstBadFrom n (splitNl s) := by
  obtain ⟨D, g, w1, extra, h1, h2, h3, h4⟩ := splitNl_append_ws hw s
  rw [h1, h2, firstBadFrom_pad h3 h4 g D n]

theorem firstBadFrom_add (k : Nat) : ∀ (ls : List Str) (n : Nat),
    firstBadFrom (n + k) ls = (firstBadFrom n ls).map (fun j => j + k) := by
  intro ls
  induction ls with
  | nil => intro n; rfl
  | cons l t ih =>
    intro n
    rw [firstBadFrom_cons_eq, firstBadFrom_cons_eq]
    by_cases hb : pyStrip l = []
    · rw [if_pos hb, if_pos hb, show n + k + 1 = (n + 1) + k from by omega, ih]
    · rw [if_neg hb, if_neg hb]
      by_cases hj : (jsonLoads (pyStrip l)).isNone
      · rw [if_pos hj, if_pos hj]
        rfl
      · rw [if_neg hj, if_neg hj, show n + k + 1 = (n + 1) + k from by omega, ih]

theorem rdropWhile_append_rtakeWhile_eq (p : Char → Bool) (l : Str) :
    List.rdropWhile p l ++ List.rtakeWhile p l = l := by
  show (l.reverse.dropWhile p).reverse ++ (l.reverse.takeWhile p).reverse = l
  rw [← List.reverse_append,
    show l.reverse.takeWhile p ++ l.reverse.dropWhile p = l.reverse from by
      rw [List.takeWhile_append_dropWhile]]
  exact List.reverse_reverse l

theorem invalidJsonLine_message_cites (n : Nat) :
    strContains ("line ".toList ++ Nat.toDigits 10 n)
      (PErr.message (.invalidJsonLine n)) = true := by
  have h : PErr.message (.invalidJsonLine n) =
      "Invalid JSON on ".toList ++ (("line ".toList ++ Nat.toDigits 10 n) ++ []) := by
    show "Invalid JSON on line ".toList ++ Nat.toDigits 10 n = _
    rw [List.append_nil,
      show ("Invalid JSON on line ".toList : Str) =
        "Invalid JSON on ".toList ++ "line ".toList from by decide,
      List.append_assoc]
  rw [h]
  exact strContains_append_mid _ _ _

/-! ## Claim C5: the line-delimited parser -/

/-- C5: the line-delimited parser `parse_jsonl` processes each non-blank
line of the stripped content as JSON.  First conjunct: the first
malformed non-blank line (all lines before it blank or valid JSON,
mapping lines building their message) raises the error carrying its
1-based line number, and the error message cites that line number.
Second conjunct: when every line is blank or valid JSON, the result is
exactly one message per mapping line, in order, blank and well-formed
non-mapping lines contributing nothing.  Third conjunct: a mapping
line's non-string `content` value is stringified with Python `str`,
never list-unwrapped. -/
theorem jsonl_parser_spec :
    (∀ (content : Str) (pre : List Str) (bad : Str) (rest : List Str),
        splitNl (pyStrip content) = pre ++ bad :: rest →
        (∀ l ∈ pre, lineOk l ∧ lineNoCrash l) →
        pyStrip bad ≠ [] → jsonLoads (pyStrip bad) = none →
        parse_jsonl content = .error (.invalidJsonLine (1 + pre.length)) ∧
        strContains ("line ".toList ++ Nat.toDigits 10 (1 + pre.length))
          (PErr.message (.invalidJsonLine (1 + pre.length))) = true) ∧
    (∀ content : Str,
        (∀ l ∈ splitNl (pyStrip content), lineOk l ∧ lineNoCrash l) →
        parse_jsonl content = .ok ((splitNl (pyStrip content)).filterMap jsonlLineSpec)) ∧
    (∀ (f : List (Str × Json)) (v : Json),
        lookupDict f "content".toList = some v → (∀ s, v ≠ .str s) →
        roleFieldOk f →
        ∃ m, lineToMessage f = some m ∧ m.content = pyStr v) := by
  refine ⟨?_, ?_, ?_⟩
  · intro content pre bad rest hsplit hok hb1 hb2
    constructor
    · show jsonlGo 1 (splitNl (pyStrip content)) = _
      rw [hsplit]
      exact jsonlGo_error_append pre bad rest hok hb1 hb2 1
    · exact invalidJsonLine_message_cites _
  · intro content hok
    exact jsonlGo_ok_filterMap _ hok 1
  · intro f v hv hns hr
    exact lineToMessage_content hv hns hr

theorem jsonl_parser_spec_witness :
    parse_jsonl inW5a = Except.error (PErr.invalidJsonLine 2) ∧
    parse_jsonl inW5b = Except.ok ((splitNl (pyStrip inW5b)).filterMap jsonlLineSpec) ∧
    ∃ m, lineToMessage [("content".toList, Json.null)] = some m ∧
      m.content = pyStr Json.null := by
  have hok1 : ∀ l ∈ (["\x7b\"role\":\"user\"\x7d".toList] : List Str),
      lineOk l ∧ lineNoCrash l := by
    intro l hl
    rw [List.mem_singleton] at hl
    subst hl
    constructor
    · exact Or.inr ⟨Json.obj [("role".toList, Json.str "user".toList)], rfl⟩
    · intro f hf
      have hf2 : some (Json.obj [("role".toList, Json.str "user".toList)]) =
          some (Json.obj f) := hf
      injection hf2 with h1
      injection h1 with h2
      subst h2
      exact ⟨_, rfl⟩
  have hok2 : ∀ l ∈ splitNl (pyStrip inW5b), lineOk l ∧ lineNoCrash l := by
    intro l hl
    rw [show splitNl (pyStrip inW5b) = [inW5b] from rfl, List.mem_singleton] at hl
    subst hl
    constructor
    · exact Or.inr ⟨Json.obj [("role".toList, Json.str "user".toList),
        ("content".toList, Json.str "hi".toList)], rfl⟩
    · intro f hf
      have hf2 : some (Json.obj [("role".toList, Json.str "user".toList),
          ("content".toList, Json.str "hi".toList)]) = some (Json.obj f) := hf
      injection hf2 with h1
      injection h1 with h2
      subst h2
      exact ⟨_, rfl⟩
  refine ⟨(jsonl_parser_spec.1 inW5a ["\x7b\"role\":\"user\"\x7d".toList]
      "notjson".toList [] rfl hok1 (by decide) rfl).1,
    jsonl_parser_spec.2.1 inW5b hok2,
    jsonl_parser_spec.2.2 [("content".toList, Json.null)] Json.null rfl
      (fun s h => Json.noConfusion h)
      (fun v hv => Option.noConfusion (show (none : Option Json) = some v from hv))⟩

/-! ## Claim C10: line numbers are relative to the stripped content -/

/-- C10: the line number in the line-delimited parser's error is the
malformed line's 1-based position within the whitespace-stripped
content: prepending whitespace-only text (stripped leading lines) to an
input that starts with a non-whitespace character leaves the parse
result, and hence the cited line number, unchanged, while the first
malformed line's 1-based position in the original input grows by the
number of newlines in the prepended whitespace — so the reported number
is smaller than the original-input position by exactly that count. -/
theorem jsonl_line_offset (pre content : Str) (j : Nat) (hpre : allWs pre)
    (hhead : ∀ c t, content = c :: t → pyIsSpace c = false)
    (herr : parse_jsonl content = .error (.invalidJsonLine j)) :
    parse_jsonl (pre ++ content) = .error (.invalidJsonLine j) ∧
    firstBadLine (splitNl (pre ++ content)) = some (countNl pre + j) := by
  have hstrip : pyStrip (pre ++ content) = pyStrip content := pyStrip_ws_prepend hpre content
  constructor
  · show jsonlGo 1 (splitNl (pyStrip (pre ++ content))) = _
    rw [hstrip]
    exact herr
  · have hdw : content.dropWhile pyIsSpace = content := by
      cases content with
      | nil => rfl
      | cons c t => simp [List.dropWhile_cons, hhead c t rfl]
    have hps : pyStrip content = List.rdropWhile pyIsSpace content := by
      show List.rdropWhile pyIsSpace (content.dropWhile pyIsSpace) = _
      rw [hdw]
    have hdecomp : content = pyStrip content ++ List.rtakeWhile pyIsSpace content := by
      rw [hps]
      exact (rdropWhile_append_rtakeWhile_eq pyIsSpace content).symm
    have hpost : allWs (List.rtakeWhile pyIsSpace content) :=
      fun x hx => List.mem_rtakeWhile_imp hx
    have hfb : firstBadFrom 1 (splitNl (pyStrip content)) = some j :=
      jsonlGo_error_firstBad herr
    show firstBadFrom 1 (splitNl (pre ++ content)) = some (countNl pre + j)
    rw [firstBadFrom_ws_prepend hpre content 1]
    conv_lhs => rw [hdecomp]
    rw [firstBadFrom_append_ws hpost _ _, firstBadFrom_add (countNl pre) _ 1, hfb]
    simp [Nat.add_comm]

theorem jsonl_line_offset_witness :
    parse_jsonl ("\n\n".toList ++ inW10) = .error (.invalidJsonLine 2) ∧
    firstBadLine (splitNl ("\n\n".toList ++ inW10)) = some 4 := by
  have h := jsonl_line_offset "\n\n".toList inW10 2
    (show ∀ c ∈ ("\n\n".toList : Str), pyIsSpace c = true from by decide)
    (by intro c t hct; injection hct with h1 h2; rw [← h1]; rfl) rfl
  exact ⟨h.1, h.2⟩
